import Mathlib

/-!
Verification of the `spacecurve` crate against its specification.

The Rust sources are embedded shallowly: `u32` values become `Nat` with an
explicit `u32Max` bound wherever the source uses checked arithmetic, fallible
constructors become `Except Error`, and unbounded `loop`s become fuel-indexed
recursions whose fuel dominates the loop's iteration count on in-range inputs.
-/

set_option autoImplicit false

namespace Spacecurve

/-- Largest value representable by a `u32`. -/
def u32Max : Nat := 2 ^ 32 - 1

/-- Error taxonomy from `error.rs` (`Error` enum). -/
inductive Error where
  | Shape (msg : String)
  | Size (msg : String)
  | Unknown (msg : String)
  | Other (msg : String)
deriving DecidableEq

/-- The four error kinds, without their messages. -/
inductive ErrKind where
  | shape
  | size
  | unknown
  | other
deriving DecidableEq

/-- Kind of an error value. -/
def Error.kind : Error → ErrKind
  | .Shape _ => .shape
  | .Size _ => .size
  | .Unknown _ => .unknown
  | .Other _ => .other

/-- Kind of the error of a fallible result, `none` on success. -/
def resultKind {α : Type} : Except Error α → Option ErrKind
  | .error e => some e.kind
  | .ok _ => none

/-- Model of `u32::checked_pow`: Rust computes `base^exp` by checked
square-and-multiply whose intermediate values never exceed the exact result
for `exp ≥ 1`, so it returns `Some` exactly when the exact power fits. -/
def checkedPow (base exp : Nat) : Option Nat :=
  if base ^ exp ≤ u32Max then some (base ^ exp) else none

/-- Model of `u32::is_power_of_two`. -/
def isPowerOfTwo (n : Nat) : Bool :=
  n ≠ 0 && (n &&& (n - 1)) == 0

/-- Model of `u32::trailing_zeros` (32 on zero, as in Rust). -/
def trailingZeros (n : Nat) : Nat :=
  if n = 0 then 32
  else if n % 2 = 1 then 0
  else trailingZeros (n / 2) + 1
termination_by n
decreasing_by
  simp_wf
  omega

/-- `GridSpec` record from `spec.rs`. -/
structure GridSpec where
  dimension : Nat
  size : Nat
  length : Nat
  order : Option Nat
  bitsPerAxis : Option Nat
deriving DecidableEq

/-- `GridSpec::new` from `spec.rs`. -/
def GridSpec.new (dimension size : Nat) : Except Error GridSpec :=
  if dimension = 0 then
    .error (.Shape ("dimension must be >= 1"))
  else if size = 0 then
    .error (.Size ("size must be >= 1"))
  else
    match checkedPow size dimension with
    | none => .error (.Size ("curve length (size^dimension) exceeds u32 bounds"))
    | some length =>
        .ok { dimension := dimension, size := size, length := length,
              order := none, bitsPerAxis := none }

/-- `GridSpec::power_of_two` from `spec.rs`. -/
def GridSpec.powerOfTwo (dimension size : Nat) : Except Error GridSpec :=
  if size = 0 || !isPowerOfTwo size then
    .error (.Size ("size must be a positive power of two"))
  else
    match GridSpec.new dimension size with
    | .error e => .error e
    | .ok spec =>
        let order := trailingZeros size
        .ok { spec with order := some order, bitsPerAxis := some order }

/-- `GridSpec::require_index_bits_lt` from `spec.rs`. -/
def GridSpec.requireIndexBitsLt (spec : GridSpec) (limit : Nat) : Except Error Unit :=
  match spec.bitsPerAxis with
  | some bits =>
      if limit ≤ bits * spec.dimension then
        .error (.Size ("index bits must be < limit for u32 indices"))
      else
        .ok ()
  | none => .ok ()

/-- `v_hilbert` validator from `registry.rs`. -/
def vHilbert (dim size : Nat) : Except Error GridSpec :=
  match GridSpec.powerOfTwo dim size with
  | .error e => .error e
  | .ok spec =>
      if 32 ≤ spec.order.getD 0 * dim then
        .error (.Size ("Hilbert requires order * dimension < 32 for u32 indices"))
      else
        .ok spec

/-- `v_hcurve` validator from `registry.rs`. -/
def vHcurve (dim size : Nat) : Except Error GridSpec :=
  if dim < 2 then
    .error (.Shape ("dimension must be >= 2"))
  else
    match GridSpec.powerOfTwo dim size with
    | .error e => .error e
    | .ok spec =>
        if 32 ≤ dim then
          .error (.Shape ("dimension must be < 32"))
        else if 32 ≤ spec.order.getD 0 * dim then
          .error (.Size ("Curve size exceeds u32 limits (D*O must be < 32)"))
        else
          .ok spec

/-- `v_zorder` validator from `registry.rs`. -/
def vZorder (dim size : Nat) : Except Error GridSpec :=
  match GridSpec.powerOfTwo dim size with
  | .error e => .error e
  | .ok spec =>
      match spec.requireIndexBitsLt 32 with
      | .error e => .error e
      | .ok _ => .ok spec

/-- `v_onion` validator from `registry.rs`. -/
def vOnion (dim size : Nat) : Except Error GridSpec :=
  GridSpec.new dim size

/-- `v_hairyonion` validator from `registry.rs`. -/
def vHairyonion (dim size : Nat) : Except Error GridSpec :=
  GridSpec.new dim size

/-- `v_scan` validator from `registry.rs`. -/
def vScan (dim size : Nat) : Except Error GridSpec :=
  GridSpec.new dim size

/-- `v_gray` validator from `registry.rs`. -/
def vGray (dim size : Nat) : Except Error GridSpec :=
  match GridSpec.powerOfTwo dim size with
  | .error e => .error e
  | .ok spec =>
      if 32 ≤ spec.bitsPerAxis.getD 0 * dim then
        .error (.Size ("Gray requires bitwidth * dimension < 32 for u32 indices"))
      else
        .ok spec

/-- Guard run by `OnionCurve::new` on an already-validated spec
(`curves/onion/mod.rs`): it re-runs `GridSpec::new` and adds the L=2 guard. -/
def onionCtorGuard (dim size : Nat) : Except Error Unit :=
  match GridSpec.new dim size with
  | .error e => .error e
  | .ok _ =>
      if size = 2 ∧ 31 < dim then
        .error (.Size ("For L=2, dimensions must be <= 31 (2^N must fit in u32)"))
      else
        .ok ()

/-- Guard run by `HairyOnionCurve::new` (`curves/hairyonion.rs`): re-runs
`GridSpec::new`. -/
def hairyonionCtorGuard (dim size : Nat) : Except Error Unit :=
  match GridSpec.new dim size with
  | .error e => .error e
  | .ok _ => .ok ()

/-- Guard run by `Scan::from_dimensions` (`curves/scan.rs`): re-runs
`GridSpec::new`. -/
def scanCtorGuard (dim size : Nat) : Except Error Unit :=
  match GridSpec.new dim size with
  | .error e => .error e
  | .ok _ => .ok ()

/-- Guard run by `Gray::from_dimensions` (`curves/gray.rs`): re-runs
`GridSpec::power_of_two` and `require_index_bits_lt(32)`. -/
def grayCtorGuard (dim size : Nat) : Except Error Unit :=
  match vZorder dim size with
  | .error e => .error e
  | .ok _ => .ok ()

/-- Modelled from the spec: the Hilbert, H-curve and Z-order constructor bodies
(`hilbert.rs`, `hcurve.rs` are not under `src/`) re-check exactly the
invariants their registry validators already enforce (the validators in
`registry.rs` are documented as "aligned with constructor invariants"), so on a
spec accepted by the matching validator they succeed. -/
def acceptCtorGuard (_dim _size : Nat) : Except Error Unit :=
  .ok ()

/-- A registry entry (`CurveEntry` in `registry.rs`), with the constructor
reduced to the validation it performs. -/
structure CurveEntry where
  key : String
  experimental : Bool
  buildSpec : Nat → Nat → Except Error GridSpec
  ctorGuard : Nat → Nat → Except Error Unit

/-- The static `REGISTRY` table from `registry.rs`, in source order. -/
def REGISTRY : List CurveEntry :=
  [ { key := "hilbert", experimental := false, buildSpec := vHilbert,
      ctorGuard := acceptCtorGuard },
    { key := "scan", experimental := false, buildSpec := vScan,
      ctorGuard := scanCtorGuard },
    { key := "zorder", experimental := false, buildSpec := vZorder,
      ctorGuard := acceptCtorGuard },
    { key := "hcurve", experimental := false, buildSpec := vHcurve,
      ctorGuard := acceptCtorGuard },
    { key := "onion", experimental := false, buildSpec := vOnion,
      ctorGuard := onionCtorGuard },
    { key := "hairyonion", experimental := true, buildSpec := vHairyonion,
      ctorGuard := hairyonionCtorGuard },
    { key := "gray", experimental := false, buildSpec := vGray,
      ctorGuard := grayCtorGuard } ]

/-- `registry::find`. -/
def find (key : String) : Option CurveEntry :=
  REGISTRY.find? (fun e => e.key == key)

/-- `registry::construct`: validate via the entry, then run the constructor
(whose own failure modes are captured by `ctorGuard`); on success the curve is
summarised by its validated spec. -/
def construct (key : String) (dimension size : Nat) : Except Error GridSpec :=
  match find key with
  | none => .error (.Unknown ("unknown pattern"))
  | some entry =>
      match entry.buildSpec dimension size with
      | .error e => .error e
      | .ok spec =>
          match entry.ctorGuard dimension size with
          | .error e => .error e
          | .ok _ => .ok spec

lemma trailingZeros_two_pow (k : Nat) : trailingZeros (2 ^ k) = k := by
  induction k with
  | zero => simp [trailingZeros]
  | succ k ih =>
      rw [trailingZeros]
      have h2 : (2 : Nat) ^ (k + 1) = 2 * 2 ^ k := by ring
      have hne : (2 : Nat) ^ (k + 1) ≠ 0 := by positivity
      have hmod : (2 : Nat) ^ (k + 1) % 2 = 0 := by
        rw [h2]; exact Nat.mul_mod_right 2 _
      have hdiv : (2 : Nat) ^ (k + 1) / 2 = 2 ^ k := by
        rw [h2]; exact Nat.mul_div_cancel_left _ (by norm_num)
      rw [if_neg hne, if_neg (by omega), hdiv, ih]

lemma isPowerOfTwo_two_pow (k : Nat) : isPowerOfTwo (2 ^ k) = true := by
  have hand : 2 ^ k &&& (2 ^ k - 1) = 0 := by
    apply Nat.eq_of_testBit_eq
    intro i
    simp only [Nat.testBit_and, Nat.testBit_two_pow, Nat.testBit_two_pow_sub_one,
      Nat.zero_testBit]
    by_cases h : k = i
    · subst h; simp
    · simp [h]
  have hne : (2 : Nat) ^ k ≠ 0 := by positivity
  simp [isPowerOfTwo, hne, hand]

/-- C4: `GridSpec::new` fails with `Shape` when the dimension is 0, with `Size`
when the size is 0 or when `S^N` exceeds the `u32` range, and otherwise
succeeds with `length = S^N`; `GridSpec::power_of_two` additionally fails with
`Size` whenever the size is not a positive power of two, and on a power of two
`2^k` succeeds with `order = bits_per_axis = k = log2 S`. -/
theorem C4_gridspec_validation :
    (∀ S, resultKind (GridSpec.new 0 S) = some ErrKind.shape) ∧
    (∀ N, 1 ≤ N → resultKind (GridSpec.new N 0) = some ErrKind.size) ∧
    (∀ N S, 1 ≤ N → 1 ≤ S → u32Max < S ^ N →
      resultKind (GridSpec.new N S) = some ErrKind.size) ∧
    (∀ N S, 1 ≤ N → 1 ≤ S → S ^ N ≤ u32Max →
      GridSpec.new N S = .ok ⟨N, S, S ^ N, none, none⟩) ∧
    (∀ N S, isPowerOfTwo S = false →
      resultKind (GridSpec.powerOfTwo N S) = some ErrKind.size) ∧
    (∀ N k, 1 ≤ N → (2 ^ k) ^ N ≤ u32Max →
      GridSpec.powerOfTwo N (2 ^ k) =
        .ok ⟨N, 2 ^ k, (2 ^ k) ^ N, some k, some k⟩) := by
  have hnew : ∀ N S, 1 ≤ N → 1 ≤ S → S ^ N ≤ u32Max →
      GridSpec.new N S = .ok ⟨N, S, S ^ N, none, none⟩ := by
    intro N S hN hS hle
    unfold GridSpec.new checkedPow
    rw [if_neg (by omega), if_neg (by omega), if_pos hle]
  refine ⟨?_, ?_, ?_, hnew, ?_, ?_⟩
  · intro S
    simp [GridSpec.new, resultKind, Error.kind]
  · intro N hN
    unfold GridSpec.new
    rw [if_neg (by omega), if_pos rfl]
    rfl
  · intro N S hN hS hlt
    unfold GridSpec.new checkedPow
    rw [if_neg (by omega), if_neg (by omega), if_neg (by omega)]
    rfl
  · intro N S hpow
    unfold GridSpec.powerOfTwo
    rw [if_pos (by simp [hpow])]
    rfl
  · intro N k hN hle
    unfold GridSpec.powerOfTwo
    rw [if_neg (by simp [isPowerOfTwo_two_pow]), hnew N (2 ^ k) hN (Nat.one_le_two_pow) hle]
    simp [trailingZeros_two_pow]

/-- Witness for C4 at concrete inputs. -/
theorem C4_gridspec_validation_witness :
    resultKind (GridSpec.new 2 0) = some ErrKind.size ∧
    resultKind (GridSpec.new 1 (2 ^ 32)) = some ErrKind.size ∧
    GridSpec.new 2 3 = .ok ⟨2, 3, 3 ^ 2, none, none⟩ ∧
    resultKind (GridSpec.powerOfTwo 2 3) = some ErrKind.size ∧
    GridSpec.powerOfTwo 2 (2 ^ 2) = .ok ⟨2, 2 ^ 2, (2 ^ 2) ^ 2, some 2, some 2⟩ :=
  ⟨C4_gridspec_validation.2.1 2 (by decide),
   C4_gridspec_validation.2.2.1 1 (2 ^ 32) (by decide) (by decide) (by decide),
   C4_gridspec_validation.2.2.2.1 2 3 (by decide) (by decide) (by decide),
   C4_gridspec_validation.2.2.2.2.1 2 3 (by decide),
   C4_gridspec_validation.2.2.2.2.2 2 2 (by decide) (by decide)⟩

/-- C5: registry construction classifies failures per the error taxonomy:
`construct("hilbert", 2, 3)` is a `Size` error, `construct("zorder", 4, 256)`
is a `Size` error, `construct("hcurve", 1, 4)` is a `Shape` error, and
`construct("banana", 2, 4)` is an `Unknown` error. -/
theorem C5_registry_error_taxonomy :
    resultKind (construct "hilbert" 2 3) = some ErrKind.size ∧
    resultKind (construct "zorder" 4 256) = some ErrKind.size ∧
    resultKind (construct "hcurve" 1 4) = some ErrKind.shape ∧
    resultKind (construct "banana" 2 4) = some ErrKind.unknown := by
  refine ⟨?_, ?_, ?_, ?_⟩ <;> decide

/-- `pow_u32` from `curves/onion/mod.rs`; values are exact here, the overflow
(`expect`) branch is modelled by the checked pipeline below. -/
def powU32 (base exp : Nat) : Nat := base ^ exp

/-- `shell_size` from `curves/onion/mod.rs`; `saturating_sub` is `Nat`
subtraction. -/
def shellSize (dimension side : Nat) : Nat :=
  if side = 0 then 0
  else powU32 side dimension - powU32 (side - 2) dimension

/-- `Shell` struct from `curves/onion/mod.rs`. -/
structure Shell where
  level : Nat
  side : Nat
  offset : Nat
  indexWithin : Nat
deriving DecidableEq

/-- Loop body of `shell_for_index`, indexed by fuel. -/
def shellForIndexAux (dimension : Nat) : Nat → Nat → Nat → Nat → Nat → Shell
  | 0, sideAtLevel, level, offset, index =>
      ⟨level, sideAtLevel, offset, index⟩
  | fuel + 1, sideAtLevel, level, offset, index =>
      let size := shellSize dimension sideAtLevel
      if index < size then ⟨level, sideAtLevel, offset, index⟩
      else
        shellForIndexAux dimension fuel (sideAtLevel - 2) (level + 1)
          (offset + size) (index - size)

/-- `shell_for_index` from `curves/onion/mod.rs`: the source loop peels at
most `⌈side/2⌉ + 1` shells for any in-range index, so fuel `side + 1`
dominates its iteration count. -/
def shellForIndex (dimension side index : Nat) : Shell :=
  shellForIndexAux dimension (side + 1) side 0 0 index

/-- The bounded `for _ in 0..level` loop of `shell_for_point`, returning the
side at the final level together with the accumulated offset. -/
def peelLevels (dimension : Nat) : Nat → Nat → Nat → Nat × Nat
  | 0, sideAtLevel, offset => (sideAtLevel, offset)
  | k + 1, sideAtLevel, offset =>
      peelLevels dimension k (sideAtLevel - 2) (offset + shellSize dimension sideAtLevel)

/-- `shell_for_point` from `curves/onion/mod.rs`. -/
def shellForPoint (dimension side : Nat) (point : List Nat) : Shell :=
  let level := ((point.map (fun c => min c (side - 1 - c))).min?).getD 0
  let res := peelLevels dimension level side 0
  ⟨level, res.1, res.2, 0⟩

/-- Scanning loop of `first_boundary`; the empty case is the
`debug_assert!(false)` fallback `(0, false)` of the source. -/
def firstBoundaryAux (side : Nat) : List Nat → Nat → Nat × Bool
  | [], _ => (0, false)
  | c :: rest, idx =>
      if c = 0 then (idx, false)
      else if c + 1 = side then (idx, true)
      else firstBoundaryAux side rest (idx + 1)

/-- `first_boundary` from `curves/onion/mod.rs`. -/
def firstBoundary (localP : List Nat) (side : Nat) : Nat × Bool :=
  firstBoundaryAux side localP 0

/-- `partition_sizes` from `curves/onion/mod.rs`. -/
def partitionSizes (dimension side : Nat) : List Nat :=
  (List.range dimension).map fun j =>
    2 * powU32 (side - 2) j * powU32 side (dimension - 1 - j)

/-- `face_sizes` from `curves/onion/mod.rs`. -/
def faceSizes (dimension side boundaryDim : Nat) : List Nat :=
  List.replicate boundaryDim (side - 2) ++
    List.replicate (dimension - 1 - boundaryDim) side

/-- `face_coords_from_point` from `curves/onion/mod.rs`. -/
def faceCoordsFromPoint (localP : List Nat) (boundaryDim : Nat) : List Nat :=
  (localP.take boundaryDim).map (fun c => c - 1) ++ localP.drop (boundaryDim + 1)

/-- `rebuild_from_face` from `curves/onion/mod.rs`, including its
`unwrap_or(0)` padding. -/
def rebuildFromFace (faceCoords : List Nat) (boundaryDim side : Nat)
    (highSide : Bool) : List Nat :=
  ((List.range boundaryDim).map fun i => faceCoords.getD i 0 + 1) ++
    (if highSide then side - 1 else 0) :: faceCoords.drop boundaryDim

/-- Size of partition `P_j` inside `onion_index_rect`/`onion_point_rect`
(`curves/onion/rect.rs`, step 3). -/
def rectPartSize (sizes : List Nat) (j : Nat) : Nat :=
  let sideFactor := if 2 ≤ sizes.getD j 0 then 2 else 1
  let pre := ((sizes.take j).map (fun l => l - 2)).foldl (· * ·) 1
  let post := (sizes.drop (j + 1)).foldl (· * ·) 1
  sideFactor * pre * post

/-- `face_block` of `curves/onion/rect.rs` (step 4). -/
def rectFaceBlock (sizes : List Nat) (iStar : Nat) : Nat :=
  (((sizes.take iStar).map (fun l => l - 2)).foldl (· * ·) 1) *
    ((sizes.drop (iStar + 1)).foldl (· * ·) 1)

/-- First boundary search of `curves/onion/rect.rs` (step 2); the empty case
is the `assert!` fallback, unreachable on outer-layer inputs. -/
def rectFirstBoundaryAux : List (Nat × Nat) → Nat → Nat
  | [], _ => 0
  | (l, q) :: rest, idx =>
      if l = 0 then rectFirstBoundaryAux rest (idx + 1)
      else if q = 0 ∨ q = l - 1 then idx
      else rectFirstBoundaryAux rest (idx + 1)

/-- First boundary dimension `i*` of a rectangular-onion point. -/
def rectFirstBoundary (sizes p : List Nat) : Nat :=
  rectFirstBoundaryAux (List.zip sizes p) 0

/-- Partition-search loop of `onion_point_rect`: subtract `size(P_j)` until
the index falls inside a partition; falling off the end is the source's
`assert!` fallback, unreachable for in-range indices. -/
def rectFindPartitionAux (sizes : List Nat) : Nat → Nat → Nat → Nat × Nat
  | 0, j, index => (j, index)
  | steps + 1, j, index =>
      let s := rectPartSize sizes j
      if index < s then (j, index)
      else rectFindPartitionAux sizes steps (j + 1) (index - s)

/-- Partition search of `onion_point_rect` over `j ∈ 0..m`. -/
def rectFindPartition (sizes : List Nat) (index : Nat) : Nat × Nat :=
  rectFindPartitionAux sizes sizes.length 0 index

/-- Fuel dominating the recursion depth of the rectangular onion: every
recursive call strictly decreases `sizes.sum + sizes.length` on the inputs the
curve reaches. -/
def rectFuel (sizes : List Nat) : Nat := sizes.sum + sizes.length + 1

/-- `onion_index_rect` from `curves/onion/rect.rs`, fuel-indexed. -/
def onionIndexRect : Nat → List Nat → List Nat → Nat
  | 0, _, _ => 0
  | fuel + 1, sizes, p =>
      if sizes.length = 0 then 0
      else if sizes.length = 1 then p.getD 0 0
      else
        let innerSizes := sizes.map (fun l => l - 2)
        let isInner := (List.zip sizes p).all fun lq =>
          decide (2 ≤ lq.1) && decide (lq.2 ≠ 0) && decide (lq.2 + 1 ≠ lq.1)
        let total := sizes.foldl (· * ·) 1
        let innerVol := innerSizes.foldl (· * ·) 1
        let outer := total - innerVol
        if isInner then
          outer + onionIndexRect fuel innerSizes (p.map (fun q => q - 1))
        else
          let iStar := rectFirstBoundary sizes p
          let offsetP := ((List.range iStar).map (rectPartSize sizes)).sum
          let faceBlock := rectFaceBlock sizes iStar
          let offsetSub :=
            if 2 ≤ sizes.getD iStar 0 ∧ p.getD iStar 0 = sizes.getD iStar 0 - 1 then
              faceBlock
            else 0
          let fs := (sizes.take iStar).map (fun l => l - 2) ++ sizes.drop (iStar + 1)
          let fc := (p.take iStar).map (fun q => q - 1) ++ p.drop (iStar + 1)
          offsetP + offsetSub + onionIndexRect fuel fs fc

/-- `onion_point_rect` from `curves/onion/rect.rs`, fuel-indexed. -/
def onionPointRect : Nat → List Nat → Nat → List Nat
  | 0, _, _ => []
  | fuel + 1, sizes, index =>
      if sizes.length = 0 then []
      else if sizes.length = 1 then [index]
      else
        let innerSizes := sizes.map (fun l => l - 2)
        let total := sizes.foldl (· * ·) 1
        let innerVol := innerSizes.foldl (· * ·) 1
        let outer := total - innerVol
        if outer ≤ index then
          (onionPointRect fuel innerSizes (index - outer)).map (fun v => v + 1)
        else
          let sel := rectFindPartition sizes index
          let iStar := sel.1
          let faceBlock := rectFaceBlock sizes iStar
          let hs :=
            if 2 ≤ sizes.getD iStar 0 then
              if sel.2 < faceBlock then (false, sel.2) else (true, sel.2 - faceBlock)
            else (false, sel.2)
          let fs := (sizes.take iStar).map (fun l => l - 2) ++ sizes.drop (iStar + 1)
          let faceCoords := onionPointRect fuel fs hs.2
          let coordI :=
            if 2 ≤ sizes.getD iStar 0 then
              if hs.1 then sizes.getD iStar 0 - 1 else 0
            else 0
          ((faceCoords.take iStar).map (fun v => v + 1)) ++
            coordI :: faceCoords.drop iStar

/-- `onion_index_l2` from `curves/onion/l2.rs`. -/
def onionIndexL2 : Nat → List Nat → Nat
  | 0, _ => 0
  | n + 1, p =>
      let volumePrev := 2 ^ n
      let last := p.getD n 0
      let iPrev := onionIndexL2 n (p.take n)
      if last = 0 then iPrev else (volumePrev - 1) - iPrev + volumePrev

/-- `onion_point_l2` from `curves/onion/l2.rs`. -/
def onionPointL2 : Nat → Nat → List Nat
  | 0, _ => []
  | n + 1, index =>
      let volumePrev := 2 ^ n
      let sel :=
        if index < volumePrev then (0, index)
        else (1, (volumePrev - 1) - (index - volumePrev))
      onionPointL2 n sel.2 ++ [sel.1]

/-- `onion_index_2d` from `curves/onion/twod.rs`; the recursion on `l - 2` is
written structurally on the side length. -/
def onionIndex2d : Nat → List Nat → Nat
  | 0, _ => 0
  | 1, _ => 0
  | l + 2, p =>
      let s := l + 2
      let x := p.getD 0 0
      let y := p.getD 1 0
      if y = 0 then x
      else if x = s - 1 then s - 1 + y
      else if y = s - 1 then 3 * s - 3 - x
      else if x = 0 then 4 * s - 4 - y
      else 4 * s - 4 + onionIndex2d l [x - 1, y - 1]

/-- `onion_point_2d` from `curves/onion/twod.rs`; the source marks `l = 0` as
unreachable for validated curves, modelled as `(0, 0)` like `l = 1`; the
recursion on `l - 2` is written structurally on the side length. -/
def onionPoint2d : Nat → Nat → List Nat
  | 0, _ => [0, 0]
  | 1, _ => [0, 0]
  | l + 2, index =>
      let s := l + 2
      let outerLayerSize := 4 * s - 4
      if outerLayerSize ≤ index then
        let pInner := onionPoint2d l (index - outerLayerSize)
        [pInner.getD 0 0 + 1, pInner.getD 1 0 + 1]
      else if index < s then [index, 0]
      else if index < 2 * s - 1 then [s - 1, index - s + 1]
      else if index < 3 * s - 2 then [3 * s - 3 - index, s - 1]
      else [0, 4 * s - 4 - index]

/-- `onion_shell_index` from `curves/onion/mod.rs`. -/
def onionShellIndex (dimension side : Nat) (localP : List Nat) : Nat :=
  if side = 1 then 0
  else if side = 2 then onionIndexL2 dimension localP
  else if dimension = 1 then localP.getD 0 0
  else if dimension = 2 then onionIndex2d side localP
  else
    let bd := firstBoundary localP side
    let offsets := partitionSizes dimension side
    let offsetP := (offsets.take bd.1).sum
    let inner := side - 2
    let subPartSize := powU32 inner bd.1 * powU32 side (dimension - 1 - bd.1)
    let offsetSub := if bd.2 then subPartSize else 0
    let fs := faceSizes dimension side bd.1
    let fc := faceCoordsFromPoint localP bd.1
    offsetP + offsetSub + onionIndexRect (rectFuel fs) fs fc

/-- Partition-selection loop of `onion_shell_point`; falling off the end
leaves `boundary_dim` at its initial value 0 with the index fully reduced,
exactly like the source loop without `break`. -/
def selectPartitionAux : List Nat → Nat → Nat → Nat × Nat
  | [], _, index => (0, index)
  | s :: rest, j, index =>
      if index < s then (j, index)
      else selectPartitionAux rest (j + 1) (index - s)

/-- Partition selection of `onion_shell_point`. -/
def selectPartition (partitions : List Nat) (index : Nat) : Nat × Nat :=
  selectPartitionAux partitions 0 index

/-- `onion_shell_point` from `curves/onion/mod.rs`. -/
def onionShellPoint (dimension side index : Nat) : List Nat :=
  if side = 1 then List.replicate dimension 0
  else if side = 2 then onionPointL2 dimension index
  else if dimension = 1 then [index]
  else if dimension = 2 then onionPoint2d side index
  else
    let partitions := partitionSizes dimension side
    let sel := selectPartition partitions index
    let inner := side - 2
    let subPartSize := powU32 inner sel.1 * powU32 side (dimension - 1 - sel.1)
    let hs :=
      if sel.2 < subPartSize then (false, sel.2) else (true, sel.2 - subPartSize)
    let fs := faceSizes dimension side sel.1
    let fc := onionPointRect (rectFuel fs) fs hs.2
    rebuildFromFace fc sel.1 side hs.1

/-- Shell-decomposition path of `onion_index_nd` (every dimension except the
3D specialisation). -/
def onionIndexGeneric (dimension side : Nat) (p : List Nat) : Nat :=
  let shell := shellForPoint dimension side p
  let localP := p.map (fun c => c - shell.level)
  shell.offset + onionShellIndex dimension shell.side localP

/-- Shell-decomposition path of `onion_point_nd`. -/
def onionPointGeneric (dimension side index : Nat) : List Nat :=
  let shell := shellForIndex dimension side index
  (onionShellPoint dimension shell.side shell.indexWithin).map (fun c => c + shell.level)

/-- `cube_volume` from `curves/onion/threed.rs`. -/
def cubeVolume (side : Nat) : Nat := powU32 side 3

/-- The `onion_index_nd(2, …)` calls made by the 3D specialisation; dimension
2 never re-enters the 3D branch, so they are the generic path. -/
def onionIndexNd2 (side : Nat) (p : List Nat) : Nat :=
  if side = 0 then 0 else onionIndexGeneric 2 side p

/-- The `onion_point_nd(2, …)` calls made by the 3D specialisation. -/
def onionPointNd2 (side index : Nat) : List Nat :=
  if side = 0 then [] else onionPointGeneric 2 side index

/-- `onion_index_3d` from `curves/onion/threed.rs`. -/
def onionIndex3d (sideLength : Nat) (point : List Nat) : Nat :=
  let layer := ((point.map (fun c => min c (sideLength - 1 - c))).min?).getD 0
  let inner := sideLength - layer * 2
  if inner ≤ 1 then cubeVolume sideLength - 1
  else
    let a := point.getD 0 0 - layer
    let b := point.getD 1 0 - layer
    let c := point.getD 2 0 - layer
    let off0 := cubeVolume sideLength - cubeVolume inner
    let faceArea := powU32 inner 2
    if a = 0 then off0 + onionIndexNd2 inner [b, c]
    else if a = inner - 1 then off0 + faceArea + onionIndexNd2 inner [b, c]
    else
      let off2 := off0 + 2 * faceArea
      let im2 := inner - 2
      if im2 = 0 then off2
      else if b = 0 ∧ c = 0 then off2 + (a - 1)
      else
        let off3 := off2 + im2
        if b = 0 ∧ 0 < c ∧ c < inner - 1 then
          off3 + onionIndexNd2 im2 [a - 1, c - 1]
        else
          let off4 := off3 + powU32 im2 2
          if b = 0 ∧ c = inner - 1 then off4 + (a - 1)
          else
            let off5 := off4 + im2
            if b = inner - 1 ∧ c = 0 then off5 + (a - 1)
            else
              let off6 := off5 + im2
              if b = inner - 1 ∧ 0 < c ∧ c < inner - 1 then
                off6 + onionIndexNd2 im2 [a - 1, c - 1]
              else
                let off7 := off6 + powU32 im2 2
                if b = inner - 1 ∧ c = inner - 1 then off7 + (a - 1)
                else
                  let off8 := off7 + im2
                  if c = 0 then off8 + onionIndexNd2 im2 [a - 1, b - 1]
                  else off8 + powU32 im2 2 + onionIndexNd2 im2 [a - 1, b - 1]

/-- Shell-peeling loop of `onion_point_3d`, fuel-indexed; fuel
`side_length + 1` dominates its iteration count on in-range indices. The
result is `(remaining, layer, current_len)`. -/
def shellLoop3d : Nat → Nat → Nat → Nat → Nat × Nat × Nat
  | 0, currentLen, remaining, layer => (remaining, layer, currentLen)
  | fuel + 1, currentLen, remaining, layer =>
      let nextLen := currentLen - 2
      let ss := cubeVolume currentLen - cubeVolume nextLen
      if remaining < ss then (remaining, layer, currentLen)
      else shellLoop3d fuel nextLen (remaining - ss) (layer + 1)

/-- `onion_point_3d` from `curves/onion/threed.rs`. -/
def onionPoint3d (sideLength index : Nat) : List Nat :=
  let res := shellLoop3d (sideLength + 1) sideLength index 0
  let r0 := res.1
  let layer := res.2.1
  let currentLen := res.2.2
  if currentLen ≤ 1 then [layer, layer, layer]
  else
    let inner := currentLen
    let im2 := inner - 2
    let faceArea := powU32 inner 2
    if r0 < faceArea then
      let yz := onionPointNd2 inner r0
      [layer, yz.getD 0 0 + layer, yz.getD 1 0 + layer]
    else
      let r1 := r0 - faceArea
      if r1 < faceArea then
        let yz := onionPointNd2 inner r1
        [layer + inner - 1, yz.getD 0 0 + layer, yz.getD 1 0 + layer]
      else
        let r2 := r1 - faceArea
        if im2 = 0 then [layer, layer, layer + inner - 1]
        else if r2 < im2 then [layer + 1 + r2, layer, layer]
        else
          let r3 := r2 - im2
          let rectArea := powU32 im2 2
          if r3 < rectArea then
            let cs := onionPointNd2 im2 r3
            [layer + 1 + cs.getD 0 0, layer, layer + 1 + cs.getD 1 0]
          else
            let r4 := r3 - rectArea
            if r4 < im2 then [layer + 1 + r4, layer, layer + inner - 1]
            else
              let r5 := r4 - im2
              if r5 < im2 then [layer + 1 + r5, layer + inner - 1, layer]
              else
                let r6 := r5 - im2
                if r6 < rectArea then
                  let cs := onionPointNd2 im2 r6
                  [layer + 1 + cs.getD 0 0, layer + inner - 1, layer + 1 + cs.getD 1 0]
                else
                  let r7 := r6 - rectArea
                  if r7 < im2 then [layer + 1 + r7, layer + inner - 1, layer + inner - 1]
                  else
                    let r8 := r7 - im2
                    if r8 < rectArea then
                      let cs := onionPointNd2 im2 r8
                      [layer + 1 + cs.getD 0 0, layer + 1 + cs.getD 1 0, layer]
                    else
                      let r9 := r8 - rectArea
                      let cs := onionPointNd2 im2 r9
                      [layer + 1 + cs.getD 0 0, layer + 1 + cs.getD 1 0, layer + inner - 1]

/-- `onion_index_nd` from `curves/onion/mod.rs`. -/
def onionIndexNd (dimension side : Nat) (p : List Nat) : Nat :=
  if dimension = 0 ∨ side = 0 then 0
  else if dimension = 3 ∧ 2 < side then onionIndex3d side p
  else onionIndexGeneric dimension side p

/-- `onion_point_nd` from `curves/onion/mod.rs`. -/
def onionPointNd (dimension side index : Nat) : List Nat :=
  if dimension = 0 ∨ side = 0 then []
  else if dimension = 3 ∧ 2 < side then onionPoint3d side index
  else onionPointGeneric dimension side index

/-- `OnionCurve::point` (`curves/onion/mod.rs`): reduces the index modulo
`length = side^dimension` before decoding.  Debug assertions are absent in
release builds and not modelled. -/
def onionCurvePoint (dimensions sideLength index : Nat) : List Nat :=
  onionPointNd dimensions sideLength (index % sideLength ^ dimensions)

/-- `hairy_onion_index_recursive` from `curves/hairyonion.rs`; the recursion
on `n - 2` is written structurally on the dimension. -/
def hairyOnionIndexRec : Nat → Nat → List Nat → Nat
  | 0, _, _ => 0
  | 1, l, p => if l ≤ 1 then 0 else p.getD 0 0
  | 2, l, p => if l ≤ 1 then 0 else onionIndex2d l p
  | n + 3, l, p =>
      if l ≤ 1 then 0
      else
        let indexRest := hairyOnionIndexRec (n + 1) l (p.drop 2)
        let index2d := onionIndex2d l (p.take 2)
        let volume2d := l * l
        let eff := if indexRest % 2 = 1 then (volume2d - 1) - index2d else index2d
        indexRest * volume2d + eff

/-- `hairy_onion_point_recursive` from `curves/hairyonion.rs`; the `l = 0`
case is the source's `unreachable!` (never hit on validated curves), modelled
like `l = 1`; the recursion on `n - 2` is written structurally on the
dimension. -/
def hairyOnionPointRec : Nat → Nat → Nat → List Nat
  | 0, _, _ => []
  | 1, l, index =>
      if l = 1 then List.replicate 1 0
      else if l = 0 then List.replicate 1 0
      else [index]
  | 2, l, index =>
      if l = 1 then List.replicate 2 0
      else if l = 0 then List.replicate 2 0
      else onionPoint2d l index
  | n + 3, l, index =>
      if l = 1 then List.replicate (n + 3) 0
      else if l = 0 then List.replicate (n + 3) 0
      else
        let volume2d := l * l
        let indexRest := index / volume2d
        let eff := index % volume2d
        let pRest := hairyOnionPointRec (n + 1) l indexRest
        let index2d := if indexRest % 2 = 1 then (volume2d - 1) - eff else eff
        onionPoint2d l index2d ++ pRest

/-- `HairyOnionCurve::point` (`curves/hairyonion.rs`): reduces the index
modulo `length = side^dimension` before decoding. -/
def hairyOnionCurvePoint (dimensions sideLength index : Nat) : List Nat :=
  hairyOnionPointRec dimensions sideLength (index % sideLength ^ dimensions)

/-- C6: the Onion curve with `N = 2`, `S = 3` yields exactly the spiral
`(0,0),(1,0),(2,0),(2,1),(2,2),(1,2),(0,2),(0,1),(1,1)` as indices 0..8. -/
theorem C6_onion_2d_point_sequence :
    onionCurvePoint 2 3 0 = [0, 0] ∧
    onionCurvePoint 2 3 1 = [1, 0] ∧
    onionCurvePoint 2 3 2 = [2, 0] ∧
    onionCurvePoint 2 3 3 = [2, 1] ∧
    onionCurvePoint 2 3 4 = [2, 2] ∧
    onionCurvePoint 2 3 5 = [1, 2] ∧
    onionCurvePoint 2 3 6 = [0, 2] ∧
    onionCurvePoint 2 3 7 = [0, 1] ∧
    onionCurvePoint 2 3 8 = [1, 1] := by
  decide

/-- C10: `OnionCurve::point` and `HairyOnionCurve::point` are total over the
whole `u32` index range and reduce the index modulo `length()` before
decoding, so `point(index) = point(index mod length)` for every index. -/
theorem C10_point_total_mod_length (dims side index : Nat)
    (hdims : 1 ≤ dims) (hside : 1 ≤ side) (hfits : side ^ dims ≤ u32Max)
    (hindex : index ≤ u32Max) :
    onionCurvePoint dims side index =
      onionCurvePoint dims side (index % side ^ dims) ∧
    hairyOnionCurvePoint dims side index =
      hairyOnionCurvePoint dims side (index % side ^ dims) := by
  unfold onionCurvePoint hairyOnionCurvePoint
  rw [Nat.mod_mod_of_dvd index dvd_rfl]
  exact ⟨rfl, rfl⟩

/-- Witness for C10 at `N = 2`, `S = 3`, `index = 13`. -/
theorem C10_point_total_mod_length_witness :
    onionCurvePoint 2 3 13 = onionCurvePoint 2 3 (13 % 3 ^ 2) ∧
    hairyOnionCurvePoint 2 3 13 = hairyOnionCurvePoint 2 3 (13 % 3 ^ 2) :=
  C10_point_total_mod_length 2 3 13 (by decide) (by decide) (by decide) (by decide)

lemma geom_sum_range (a b : Nat) (hab : a ≤ b) :
    ∀ n, (b - a) * ((List.range n).map fun j => a ^ j * b ^ (n - 1 - j)).sum
      = b ^ n - a ^ n := by
  intro n
  induction n with
  | zero => simp
  | succ n ih =>
      have hsplit :
          ((List.range (n + 1)).map fun j => a ^ j * b ^ (n + 1 - 1 - j)).sum
            = b ^ n + a * ((List.range n).map fun j => a ^ j * b ^ (n - 1 - j)).sum := by
        rw [List.range_succ_eq_map]
        simp only [List.map_cons, List.map_map, List.sum_cons, pow_zero, one_mul,
          Nat.add_sub_cancel, Nat.sub_zero]
        congr 1
        have hmap : List.map ((fun j => a ^ j * b ^ (n - j)) ∘ Nat.succ)
              (List.range n)
            = List.map (fun j => a * (a ^ j * b ^ (n - 1 - j))) (List.range n) := by
          apply List.map_congr_left
          intro j _
          simp only [Function.comp_apply]
          have harith : n - (j + 1) = n - 1 - j := by omega
          rw [Nat.succ_eq_add_one, harith, pow_succ]
          ring
        rw [hmap, List.sum_map_mul_left]
      rw [hsplit, Nat.mul_add]
      have h1 : (b - a) * b ^ n = b * b ^ n - a * b ^ n := by
        rw [Nat.sub_mul]
      have h2 : (b - a) * (a * ((List.range n).map fun j => a ^ j * b ^ (n - 1 - j)).sum)
          = a * (b ^ n - a ^ n) := by
        rw [← Nat.mul_left_comm, ih]
      rw [h1, h2, Nat.mul_sub]
      have hba : a * b ^ n ≤ b * b ^ n := Nat.mul_le_mul_right _ hab
      have haa : a * a ^ n ≤ a * b ^ n := Nat.mul_le_mul_left _ (Nat.pow_le_pow_left hab n)
      have hpow1 : b * b ^ n = b ^ (n + 1) := by ring
      have hpow2 : a * a ^ n = a ^ (n + 1) := by ring
      omega

/-- C2: for every dimension `N ≥ 2` and shell side `s ≥ 3`, the Onion
partition sizes `size(P_j) = 2·(s−2)^j·s^(N−1−j)` sum exactly to
`shell_size(N, s) = s^N − (s−2)^N`. -/
theorem C2_partition_sizes_tile_shell (N s : Nat) (hN : 2 ≤ N) (hs : 3 ≤ s) :
    (partitionSizes N s).sum = shellSize N s := by
  unfold partitionSizes shellSize powU32
  rw [if_neg (by omega)]
  have hsum :
      ((List.range N).map fun j => 2 * (s - 2) ^ j * s ^ (N - 1 - j)).sum
        = 2 * ((List.range N).map fun j => (s - 2) ^ j * s ^ (N - 1 - j)).sum := by
    have hmap : List.map (fun j => 2 * (s - 2) ^ j * s ^ (N - 1 - j)) (List.range N)
        = List.map (fun j => 2 * ((s - 2) ^ j * s ^ (N - 1 - j))) (List.range N) := by
      apply List.map_congr_left
      intro j _
      ring
    rw [hmap, List.sum_map_mul_left]
  have hgeom := geom_sum_range (s - 2) s (by omega) N
  have h2 : s - (s - 2) = 2 := by omega
  rw [h2] at hgeom
  rw [hsum, hgeom]

/-- Witness for C2 at `N = 3`, `s = 5`. -/
theorem C2_partition_sizes_tile_shell_witness :
    (partitionSizes 3 5).sum = shellSize 3 5 :=
  C2_partition_sizes_tile_shell 3 5 (by decide) (by decide)

/-- Decoding loop of `Scan::point` (`curves/scan.rs`), as a recursion over the
dimensions processed from highest to lowest; the result lists coordinates
`[c_0, …, c_{n-1}]`.  The running parity flag and the
`remaining_index -= raw_coordinate * stride` update are kept verbatim. -/
def scanPointAux (size : Nat) : Nat → Bool → Nat → List Nat
  | 0, _, _ => []
  | n + 1, rev, index =>
      scanPointAux size n
        (if (if rev then size - index / size ^ n - 1 else index / size ^ n) % 2 ≠ 0
          then !rev else rev)
        (index - index / size ^ n * size ^ n)
        ++ [if rev then size - index / size ^ n - 1 else index / size ^ n]

/-- `Scan::point` from `curves/scan.rs`: the reverse flag starts false. -/
def scanPoint (dimension size index : Nat) : List Nat :=
  scanPointAux size dimension false index

/-- Manhattan (L1) distance between two coordinate lists. -/
def manhattan (xs ys : List Nat) : Nat :=
  (List.zipWith Nat.dist xs ys).sum

lemma scanPointAux_length (size : Nat) :
    ∀ n rev index, (scanPointAux size n rev index).length = n := by
  intro n
  induction n with
  | zero => intro rev index; rfl
  | succ n ih => intro rev index; simp [scanPointAux, ih]

lemma manhattan_append_singleton (xs ys : List Nat) (a b : Nat)
    (h : xs.length = ys.length) :
    manhattan (xs ++ [a]) (ys ++ [b]) = manhattan xs ys + Nat.dist a b := by
  unfold manhattan
  rw [List.zipWith_append _ _ _ _ _ h, List.sum_append]
  simp

lemma manhattan_self (xs : List Nat) : manhattan xs xs = 0 := by
  induction xs with
  | nil => rfl
  | cons x xs ih => simpa [manhattan, Nat.dist_self] using ih

lemma scanPointAux_reverse (size : Nat) :
    ∀ n rev index, index < size ^ n →
      scanPointAux size n (!rev) (size ^ n - 1 - index) = scanPointAux size n rev index := by
  intro n
  induction n with
  | zero => intro rev index _; rfl
  | succ n ih =>
      intro rev index h
      have hsize : 0 < size := by
        rcases Nat.eq_zero_or_pos size with h0 | h0
        · subst h0; simp at h
        · exact h0
      have hpow : size ^ (n + 1) = size ^ n * size := pow_succ size n
      simp only [scanPointAux]
      rw [hpow] at h ⊢
      have hT : 0 < size ^ n := pow_pos hsize n
      generalize hsn : size ^ n = T at h ih hT ⊢
      have hqr := Nat.div_add_mod index T
      have hr : index % T < T := Nat.mod_lt _ hT
      have hq : index / T < size := by
        rw [Nat.div_lt_iff_lt_mul hT]
        have hcm : size * T = T * size := Nat.mul_comm _ _
        omega
      generalize hq0 : index / T = q at hqr hq ⊢
      generalize hr0 : index % T = r at hqr hr
      have hmulle : T * q + T ≤ T * size := by
        have h1 : T * (q + 1) ≤ T * size := Nat.mul_le_mul_left _ (by omega)
        have h2 : T * (q + 1) = T * q + T := by ring
        omega
      have hexp : T * (size - 1 - q) = T * size - T - T * q := by
        rw [Nat.mul_sub, Nat.mul_sub, Nat.mul_one]
      have hmirror : T * size - 1 - index = (T - 1 - r) + T * (size - 1 - q) := by
        omega
      have hdiv2 : (T * size - 1 - index) / T = size - 1 - q := by
        rw [hmirror, Nat.add_mul_div_left _ _ hT,
          Nat.div_eq_of_lt (show T - 1 - r < T by omega)]
        omega
      have harg : T * size - 1 - index - (size - 1 - q) * T = T - 1 - r := by
        have hcm : (size - 1 - q) * T = T * (size - 1 - q) := Nat.mul_comm _ _
        omega
      have harg2 : index - q * T = r := by
        have hcm : q * T = T * q := Nat.mul_comm _ _
        omega
      rw [hdiv2, harg, harg2]
      have hc : (if !rev then size - (size - 1 - q) - 1 else size - 1 - q)
          = (if rev then size - q - 1 else q) := by
        cases rev with
        | false => simp; omega
        | true => simp; omega
      rw [hc]
      have hflag :
          (if (if rev then size - q - 1 else q) % 2 ≠ 0 then !!rev else !rev)
          = !(if (if rev then size - q - 1 else q) % 2 ≠ 0 then !rev else rev) := by
        by_cases hp : (if rev then size - q - 1 else q) % 2 ≠ 0
        · simp [hp]
        · simp [hp]
      rw [hflag, ih (if (if rev then size - q - 1 else q) % 2 ≠ 0 then !rev else rev) r hr]

lemma scanPointAux_step (size : Nat) :
    ∀ n rev index, index + 1 < size ^ n →
      manhattan (scanPointAux size n rev index) (scanPointAux size n rev (index + 1)) = 1 := by
  intro n
  induction n with
  | zero =>
      intro rev index h
      simp at h
  | succ n ih =>
      intro rev index h
      have hsize : 0 < size := by
        rcases Nat.eq_zero_or_pos size with h0 | h0
        · subst h0; simp at h
        · exact h0
      have hpow : size ^ (n + 1) = size ^ n * size := pow_succ size n
      have hrev := scanPointAux_reverse size n
      simp only [scanPointAux]
      rw [hpow] at h
      have hT : 0 < size ^ n := pow_pos hsize n
      generalize hsn : size ^ n = T at h ih hrev hT ⊢
      have hqr := Nat.div_add_mod index T
      have hr : index % T < T := Nat.mod_lt _ hT
      generalize hq0 : index / T = q at hqr ⊢
      generalize hr0 : index % T = r at hqr hr
      by_cases hcase : r + 1 < T
      · -- the increment stays inside the same top-level slab
        have hsplit : index + 1 = (r + 1) + T * q := by omega
        have hdiv1 : (index + 1) / T = q := by
          rw [hsplit, Nat.add_mul_div_left _ _ hT, Nat.div_eq_of_lt hcase]
          omega
        have hargR : index + 1 - q * T = r + 1 := by
          have hcm : q * T = T * q := Nat.mul_comm _ _
          omega
        have hargL : index - q * T = r := by
          have hcm : q * T = T * q := Nat.mul_comm _ _
          omega
        rw [hdiv1, hargR, hargL]
        rw [manhattan_append_singleton _ _ _ _
          (by rw [scanPointAux_length, scanPointAux_length])]
        rw [ih _ r hcase, Nat.dist_self]
      · -- the increment crosses into the next slab
        have hrT : r + 1 = T := by omega
        have hxp : T * (q + 1) = T * q + T := by ring
        have hiplus : index + 1 = T * (q + 1) := by omega
        have hq1 : q + 1 < size := by
          by_contra hc
          push_neg at hc
          have hx : T * size ≤ T * (q + 1) := Nat.mul_le_mul_left _ hc
          omega
        have hdiv1 : (index + 1) / T = q + 1 := by
          rw [hiplus, Nat.mul_div_cancel_left _ hT]
        have hargR : index + 1 - (q + 1) * T = 0 := by
          have hcm : (q + 1) * T = T * (q + 1) := Nat.mul_comm _ _
          omega
        have hargL : index - q * T = T - 1 := by
          have hcm : q * T = T * q := Nat.mul_comm _ _
          omega
        rw [hdiv1, hargR, hargL]
        rw [manhattan_append_singleton _ _ _ _
          (by rw [scanPointAux_length, scanPointAux_length])]
        have hflip :
            (if (if rev then size - (q + 1) - 1 else q + 1) % 2 ≠ 0 then !rev else rev)
            = !(if (if rev then size - q - 1 else q) % 2 ≠ 0 then !rev else rev) := by
          have hpar : (if rev then size - (q + 1) - 1 else q + 1) % 2 ≠ 0
              ↔ ¬((if rev then size - q - 1 else q) % 2 ≠ 0) := by
            cases rev with
            | false => simp; omega
            | true => simp; omega
          by_cases hp : (if rev then size - q - 1 else q) % 2 ≠ 0
          · have hc2 : ¬((if rev then size - (q + 1) - 1 else q + 1) % 2 ≠ 0) := by
              rw [hpar]; simp [hp]
            rw [if_neg hc2, if_pos hp]
            simp
          · have hc2 : (if rev then size - (q + 1) - 1 else q + 1) % 2 ≠ 0 :=
              hpar.mpr hp
            rw [if_pos hc2, if_neg hp]
        rw [hflip]
        have hrev1 := hrev
          (if (if rev then size - q - 1 else q) % 2 ≠ 0 then !rev else rev) (T - 1)
          (by omega)
        have hzero : T - 1 - (T - 1) = 0 := by omega
        rw [hzero] at hrev1
        rw [hrev1, manhattan_self]
        have hdist : Nat.dist (if rev then size - q - 1 else q)
            (if rev then size - (q + 1) - 1 else q + 1) = 1 := by
          cases rev <;> simp [Nat.dist] <;> omega
        rw [hdist]

/-- C7: for every Scan curve over a valid grid and every index `i ∈ (0, L)`,
consecutive points `point(i-1)` and `point(i)` are at Manhattan distance 1. -/
theorem C7_scan_continuity (N S i : Nat) (hN : 1 ≤ N) (hS : 1 ≤ S)
    (hfits : S ^ N ≤ u32Max) (h0 : 0 < i) (hi : i < S ^ N) :
    manhattan (scanPoint N S (i - 1)) (scanPoint N S i) = 1 := by
  have hstep := scanPointAux_step S N false (i - 1) (by omega)
  have hsucc : i - 1 + 1 = i := by omega
  rw [hsucc] at hstep
  exact hstep

/-- Witness for C7 on the 3×3 Scan grid at `i = 3`. -/
theorem C7_scan_continuity_witness :
    manhattan (scanPoint 2 3 2) (scanPoint 2 3 3) = 1 :=
  C7_scan_continuity 2 3 3 (by decide) (by decide) (by decide) (by decide) (by decide)

lemma take_two_append (xs ys : List Nat) (h : xs.length = 2) :
    (xs ++ ys).take 2 = xs := by
  rw [← h]
  exact List.take_left _ _

lemma onionPoint2d_length (l i : Nat) : (onionPoint2d l i).length = 2 := by
  match l with
  | 0 => rfl
  | 1 => rfl
  | l + 2 =>
      simp only [onionPoint2d]
      split_ifs <;> simp

/-- C8: for every Hairy Onion curve with `N ≥ 3`, at every tile boundary
`k·S² ∈ (0, S^N)` the first two coordinates of `point(k·S² − 1)` and
`point(k·S²)` coincide: the parity-based reflection glues consecutive tiles. -/
theorem C8_hairy_onion_tile_continuity (n S k : Nat) (hn : 3 ≤ n) (hS : 1 ≤ S)
    (hfits : S ^ n ≤ u32Max) (hpos : 0 < k * S ^ 2) (hlt : k * S ^ 2 < S ^ n) :
    (hairyOnionPointRec n S (k * S ^ 2 - 1)).take 2
      = (hairyOnionPointRec n S (k * S ^ 2)).take 2 := by
  have hS2 : 2 ≤ S := by
    by_contra hc
    push_neg at hc
    have hS1 : S = 1 := by omega
    subst hS1
    simp at hpos hlt
    omega
  have hk : 1 ≤ k := by
    by_contra hc
    push_neg at hc
    have hk0 : k = 0 := by omega
    subst hk0
    simp at hpos
  obtain ⟨m, rfl⟩ : ∃ m, n = m + 3 := ⟨n - 3, by omega⟩
  have hne1 : ¬(S = 1) := by omega
  have hne0 : ¬(S = 0) := by omega
  have hpow2 : S ^ 2 = S * S := by ring
  rw [hpow2] at hpos hlt ⊢
  have hWpos : 0 < S * S := by positivity
  simp only [hairyOnionPointRec, if_neg hne1, if_neg hne0]
  generalize hWd : S * S = W at hpos hlt hWpos ⊢
  have hcm : k * W = W * k := Nat.mul_comm _ _
  have hexp : W * (k - 1) = W * k - W := by
    rw [Nat.mul_sub, Nat.mul_one]
  have hWle : W ≤ W * k := by
    have h1 : W * 1 ≤ W * k := Nat.mul_le_mul_left _ hk
    omega
  have hsplit : k * W - 1 = (W - 1) + W * (k - 1) := by omega
  have hdivL : (k * W - 1) / W = k - 1 := by
    rw [hsplit, Nat.add_mul_div_left _ _ hWpos,
      Nat.div_eq_of_lt (show W - 1 < W by omega)]
    omega
  have hmodL : (k * W - 1) % W = W - 1 := by
    rw [hsplit, Nat.add_mul_mod_self_left, Nat.mod_eq_of_lt (by omega)]
  have hdivR : k * W / W = k := Nat.mul_div_cancel _ hWpos
  have hmodR : k * W % W = 0 := Nat.mul_mod_left _ _
  rw [hdivL, hmodL, hdivR, hmodR]
  have hidx : (if (k - 1) % 2 = 1 then W - 1 - (W - 1) else W - 1)
      = (if k % 2 = 1 then W - 1 - 0 else 0) := by
    by_cases hk2 : k % 2 = 1
    · rw [if_pos hk2, if_neg (by omega)]
      omega
    · rw [if_neg hk2, if_pos (by omega)]
      omega
  rw [hidx]
  rw [take_two_append _ _ (onionPoint2d_length S _),
    take_two_append _ _ (onionPoint2d_length S _)]

/-- Witness for C8 on the 3×3×3 Hairy Onion at tile boundary `k = 1`. -/
theorem C8_hairy_onion_tile_continuity_witness :
    (hairyOnionPointRec 3 3 (1 * 3 ^ 2 - 1)).take 2
      = (hairyOnionPointRec 3 3 (1 * 3 ^ 2)).take 2 :=
  C8_hairy_onion_tile_continuity 3 3 1 (by decide) (by decide) (by decide)
    (by decide) (by decide)

/-- Modelled from the spec: Gray code `g(x) = x XOR (x >> 1)` (spec §4.1);
`ops.rs` is declared in `lib.rs` but its body is not under `src/`. -/
def graycode (x : Nat) : Nat := x ^^^ (x >>> 1)

/-- Modelled from the spec: coordinate `k` produced by
`deinterleave_lsb(D, W, code)` — its bit `b` is bit `b·D + k` of the code
(spec §4.1); `ops.rs` is not under `src/`. -/
def coordOf (d w code k : Nat) : Nat :=
  ((List.range w).map fun b => 2 ^ b * (if code.testBit (b * d + k) then 1 else 0)).sum

/-- Modelled from the spec: `deinterleave_lsb(D, W, code)` (spec §4.1). -/
def deinterleaveLsb (d w code : Nat) : List Nat :=
  (List.range d).map (coordOf d w code)

/-- `Gray::point` from `curves/gray.rs`: Gray-code the index, then
deinterleave across the axes. -/
def grayPoint (dimension bitsPerAxis index : Nat) : List Nat :=
  deinterleaveLsb dimension bitsPerAxis (graycode index)

lemma xor_shiftRight (x y n : Nat) : (x ^^^ y) >>> n = (x >>> n) ^^^ (y >>> n) := by
  apply Nat.eq_of_testBit_eq
  intro i
  simp [Nat.testBit_shiftRight, Nat.testBit_xor]

lemma graycode_xor (x y : Nat) : graycode x ^^^ graycode y = graycode (x ^^^ y) := by
  unfold graycode
  rw [xor_shiftRight]
  apply Nat.eq_of_testBit_eq
  intro i
  simp only [Nat.testBit_xor]
  cases x.testBit i <;> cases (x >>> 1).testBit i <;>
    cases y.testBit i <;> cases (y >>> 1).testBit i <;> rfl

lemma xor_div_two (x y : Nat) : (x ^^^ y) / 2 = x / 2 ^^^ y / 2 := by
  have h := xor_shiftRight x y 1
  simpa [Nat.shiftRight_one] using h

lemma xor_pred_eq : ∀ i, 0 < i → ∃ t, i ^^^ (i - 1) = 2 ^ (t + 1) - 1 := by
  intro i
  induction i using Nat.strong_induction_on with
  | _ i ih =>
      intro hi
      by_cases hodd : i % 2 = 1
      · refine ⟨0, ?_⟩
        apply Nat.eq_of_testBit_eq
        intro b
        cases b with
        | zero =>
            have h1 : (i - 1) % 2 = 0 := by omega
            simp [Nat.testBit_zero, hodd, h1]
            omega
        | succ b =>
            have h1 : (i - 1) / 2 = i / 2 := by omega
            simp only [Nat.testBit_succ, xor_div_two, h1, Nat.xor_self]
            simp [Nat.zero_testBit]
      · have h2 : 2 ≤ i := by omega
        obtain ⟨t, ht⟩ := ih (i / 2) (by omega) (by omega)
        refine ⟨t + 1, ?_⟩
        apply Nat.eq_of_testBit_eq
        intro b
        have hp2 : (2 : Nat) ^ (t + 1 + 1) - 1 = 2 * (2 ^ (t + 1) - 1) + 1 := by
          have := Nat.one_le_two_pow (n := t + 1)
          have hx : (2 : Nat) ^ (t + 1 + 1) = 2 * 2 ^ (t + 1) := by ring
          omega
        cases b with
        | zero =>
            have h1 : (i - 1) % 2 = 1 := by omega
            have h0 : i % 2 = 0 := by omega
            simp [Nat.testBit_zero, h0, h1, hp2, Nat.mul_add_mod]
            omega
        | succ b =>
            have h1 : (i - 1) / 2 = i / 2 - 1 := by omega
            have hdiv : (2 * (2 ^ (t + 1) - 1) + 1) / 2 = 2 ^ (t + 1) - 1 := by omega
            rw [hp2]
            simp only [Nat.testBit_succ, xor_div_two, h1, hdiv]
            rw [ht]

lemma graycode_pred (i : Nat) (h : 0 < i) :
    ∃ t, graycode i ^^^ graycode (i - 1) = 2 ^ t := by
  obtain ⟨t, ht⟩ := xor_pred_eq i h
  refine ⟨t, ?_⟩
  rw [graycode_xor, ht]
  unfold graycode
  have hs : (2 ^ (t + 1) - 1) >>> 1 = 2 ^ t - 1 := by
    rw [Nat.shiftRight_one]
    have hx : (2 : Nat) ^ (t + 1) = 2 * 2 ^ t := by ring
    omega
  rw [hs]
  apply Nat.eq_of_testBit_eq
  intro b
  simp only [Nat.testBit_xor, Nat.testBit_two_pow_sub_one, Nat.testBit_two_pow]
  by_cases h1 : b < t
  · rw [decide_eq_true (show b < t + 1 by omega), decide_eq_true h1,
      decide_eq_false (show ¬t = b by omega)]
    rfl
  · by_cases h2 : b = t
    · subst h2
      rw [decide_eq_true (show b < b + 1 by omega), decide_eq_false h1,
        decide_eq_true rfl]
      rfl
    · rw [decide_eq_false (show ¬b < t + 1 by omega), decide_eq_false h1,
        decide_eq_false (show ¬t = b by omega)]
      rfl

lemma graycode_lt (x M : Nat) (h : x < 2 ^ M) : graycode x < 2 ^ M := by
  unfold graycode
  apply Nat.xor_lt_two_pow h
  calc x >>> 1 = x / 2 := Nat.shiftRight_one x
  _ ≤ x := Nat.div_le_self _ _
  _ < 2 ^ M := h

lemma sum_range_single_diff (f g : Nat → Nat) (b0 : Nat)
    (hfg : ∀ b, b ≠ b0 → f b = g b) :
    ∀ w, b0 < w →
      ((List.range w).map f).sum + g b0 = ((List.range w).map g).sum + f b0 := by
  intro w
  induction w with
  | zero => intro hw; omega
  | succ w ih =>
      intro hw
      rw [List.range_succ, List.map_append, List.map_append,
        List.sum_append, List.sum_append]
      by_cases hb : w = b0
      · subst hb
        have hSeq : ((List.range w).map f).sum = ((List.range w).map g).sum := by
          congr 1
          apply List.map_congr_left
          intro b hbmem
          have hblt : b < w := List.mem_range.mp hbmem
          exact hfg b (by omega)
        simp only [List.map_cons, List.map_nil, List.sum_cons, List.sum_nil]
        omega
      · have hfw : f w = g w := hfg w hb
        have hkey := ih (by omega)
        simp only [List.map_cons, List.map_nil, List.sum_cons, List.sum_nil, hfw]
        omega

lemma coordOf_xor_pow_ne (d w code t k : Nat) (hk : k < d) (hne : k ≠ t % d) :
    coordOf d w (code ^^^ 2 ^ t) k = coordOf d w code k := by
  unfold coordOf
  congr 1
  apply List.map_congr_left
  intro b _
  have hmod : (b * d + k) % d = k := by
    have hx : b * d + k = k + d * b := by ring
    rw [hx, Nat.add_mul_mod_self_left, Nat.mod_eq_of_lt hk]
  have hne2 : t ≠ b * d + k := by
    intro hEq
    apply hne
    rw [hEq, hmod]
  simp [Nat.testBit_xor, Nat.testBit_two_pow, hne2]

lemma coordOf_xor_pow_eq (d w code t : Nat) (hd : 0 < d) (ht : t < w * d) :
    Nat.dist (coordOf d w (code ^^^ 2 ^ t) (t % d)) (coordOf d w code (t % d))
      = 2 ^ (t / d) := by
  have hb0 : t / d < w := by
    rw [Nat.div_lt_iff_lt_mul hd]
    omega
  have hback : t / d * d + t % d = t := by
    have hcm : t / d * d = d * (t / d) := Nat.mul_comm _ _
    have := Nat.div_add_mod t d
    omega
  have hbit : (code ^^^ 2 ^ t).testBit t = !code.testBit t := by
    simp [Nat.testBit_xor, Nat.testBit_two_pow]
  have hkey := sum_range_single_diff
    (fun b => 2 ^ b * (if (code ^^^ 2 ^ t).testBit (b * d + t % d) then 1 else 0))
    (fun b => 2 ^ b * (if code.testBit (b * d + t % d) then 1 else 0))
    (t / d)
    (by
      intro b hb
      have hdd : (b * d + t % d) / d = b := by
        have hx : b * d + t % d = t % d + d * b := by ring
        rw [hx, Nat.add_mul_div_left _ _ hd, Nat.div_eq_of_lt (Nat.mod_lt _ hd)]
        omega
      have hne2 : t ≠ b * d + t % d := by
        intro hEq
        apply hb
        rw [hEq, hdd]
      simp [Nat.testBit_xor, Nat.testBit_two_pow, hne2])
    w hb0
  have hkey2 : coordOf d w (code ^^^ 2 ^ t) (t % d)
        + 2 ^ (t / d) * (if code.testBit (t / d * d + t % d) then 1 else 0)
      = coordOf d w code (t % d)
        + 2 ^ (t / d) * (if (code ^^^ 2 ^ t).testBit (t / d * d + t % d) then 1 else 0) :=
    hkey
  rw [hback, hbit] at hkey2
  clear hkey
  have hPpos : 0 < 2 ^ (t / d) := Nat.pos_pow_of_pos _ (by omega)
  cases hcb : code.testBit t with
  | false =>
      rw [hcb] at hkey2
      simp at hkey2
      simp only [Nat.dist]
      generalize hP : 2 ^ (t / d) = P at hkey2 hPpos ⊢
      omega
  | true =>
      rw [hcb] at hkey2
      simp at hkey2
      simp only [Nat.dist]
      generalize hP : 2 ^ (t / d) = P at hkey2 hPpos ⊢
      omega

lemma grayPoint_getD (d w index k : Nat) (hk : k < d) :
    (grayPoint d w index).getD k 0 = coordOf d w (graycode index) k := by
  unfold grayPoint deinterleaveLsb
  rw [List.getD_eq_getElem?_getD, List.getElem?_map, List.getElem?_range hk]
  rfl

/-- C3 counterexample: on the valid power-of-two grid `N = 1`, `S = 4`
(`W = 2`, `W·N < 32`), the Gray curve moves from `point(1) = (1)` to
`point(2) = (3)`: a Manhattan step of 2, not 1. -/
theorem C3_gray_unit_step_counterexample :
    2 * 1 < 32 ∧ 0 < 2 ∧ 2 < (2 ^ 2) ^ 1 ∧
    grayPoint 1 2 1 = [1] ∧ grayPoint 1 2 2 = [3] ∧
    manhattan (grayPoint 1 2 1) (grayPoint 1 2 2) ≠ 1 := by
  refine ⟨by decide, by decide, by decide, by decide, by decide, by decide⟩

/-- C3 (amended): for every Gray curve over a valid power-of-two grid
(`N ≥ 1`, `S = 2^W`, `W·N < 32`) and every `i ∈ (0, S^N)`, `point(i-1)` and
`point(i)` differ in exactly one axis, and on that axis the coordinates differ
in exactly one bit — the change is `±2^b` for some `b < W` (so the Manhattan
step is 1 exactly when that bit is the lowest one, e.g. whenever `S = 2`). -/
theorem C3_gray_adjacent_one_axis_one_bit (N W i : Nat)
    (hN : 1 ≤ N) (hbits : W * N < 32) (h0 : 0 < i) (hi : i < (2 ^ W) ^ N) :
    ∃ a, a < N ∧ ∃ b, b < W ∧
      (∀ k, k < N → k ≠ a →
        (grayPoint N W (i - 1)).getD k 0 = (grayPoint N W i).getD k 0) ∧
      Nat.dist ((grayPoint N W (i - 1)).getD a 0) ((grayPoint N W i).getD a 0)
        = 2 ^ b := by
  have hM : (2 ^ W) ^ N = 2 ^ (W * N) := by rw [← pow_mul]
  obtain ⟨t, ht⟩ := graycode_pred i h0
  have hgi : graycode i < 2 ^ (W * N) := graycode_lt _ _ (by rw [← hM]; exact hi)
  have hgi1 : graycode (i - 1) < 2 ^ (W * N) := graycode_lt _ _ (by rw [← hM]; omega)
  have hxlt : graycode i ^^^ graycode (i - 1) < 2 ^ (W * N) :=
    Nat.xor_lt_two_pow hgi hgi1
  have htlt : t < W * N := by
    rw [ht] at hxlt
    exact (Nat.pow_lt_pow_iff_right (by omega)).mp hxlt
  have hflip : graycode (i - 1) = graycode i ^^^ 2 ^ t := by
    rw [← ht, ← Nat.xor_assoc, Nat.xor_self, Nat.zero_xor]
  have hd : 0 < N := hN
  refine ⟨t % N, Nat.mod_lt _ hd, t / N, ?_, ?_, ?_⟩
  · rw [Nat.div_lt_iff_lt_mul hd]
    omega
  · intro k hk hka
    rw [grayPoint_getD _ _ _ _ hk, grayPoint_getD _ _ _ _ hk, hflip]
    exact coordOf_xor_pow_ne N W (graycode i) t k hk hka
  · rw [grayPoint_getD _ _ _ _ (Nat.mod_lt _ hd),
      grayPoint_getD _ _ _ _ (Nat.mod_lt _ hd), hflip]
    exact coordOf_xor_pow_eq N W (graycode i) t hd (by omega)

/-- Witness for the amended C3 on the 2D, S=4 Gray curve at `i = 4`. -/
theorem C3_gray_adjacent_one_axis_one_bit_witness :
    ∃ a, a < 2 ∧ ∃ b, b < 2 ∧
      (∀ k, k < 2 → k ≠ a →
        (grayPoint 2 2 3).getD k 0 = (grayPoint 2 2 4).getD k 0) ∧
      Nat.dist ((grayPoint 2 2 3).getD a 0) ((grayPoint 2 2 4).getD a 0)
        = 2 ^ b :=
  C3_gray_adjacent_one_axis_one_bit 2 2 4 (by decide) (by decide) (by decide)
    (by decide)

/-! ### Checked-arithmetic mirror of the Onion pipeline (for overflow safety)

Every `checked_mul`, `checked_add` and `checked_pow` (`pow_u32`) of the Onion
index/point computation is mirrored by an `Option`-valued definition that
fails exactly when the corresponding `expect` would panic in the source.
Fuel exhaustion in the loop mirrors also yields `none`, so `= some _`
additionally certifies that the chosen fuels dominate the real loops. -/

/-- Model of `u32::checked_mul`. -/
def checkedMul (a b : Nat) : Option Nat :=
  if a * b ≤ u32Max then some (a * b) else none

/-- Model of `u32::checked_add`. -/
def checkedAdd (a b : Nat) : Option Nat :=
  if a + b ≤ u32Max then some (a + b) else none

/-- Checked `shell_size`: both `pow_u32` calls are checked. -/
def shellSizeChecked (dimension side : Nat) : Option Nat :=
  if side = 0 then some 0
  else do
    let a ← checkedPow side dimension
    let b ← checkedPow (side - 2) dimension
    some (a - b)

/-- Checked `shell_for_index` loop. -/
def shellForIndexAuxChecked (dimension : Nat) :
    Nat → Nat → Nat → Nat → Nat → Option Shell
  | 0, _, _, _, _ => none
  | fuel + 1, sideAtLevel, level, offset, index => do
      let size ← shellSizeChecked dimension sideAtLevel
      if index < size then some ⟨level, sideAtLevel, offset, index⟩
      else
        shellForIndexAuxChecked dimension fuel (sideAtLevel - 2) (level + 1)
          (offset + size) (index - size)

/-- Checked `shell_for_index`. -/
def shellForIndexChecked (dimension side index : Nat) : Option Shell :=
  shellForIndexAuxChecked dimension (side + 1) side 0 0 index

/-- Checked peel loop of `shell_for_point`. -/
def peelLevelsChecked (dimension : Nat) : Nat → Nat → Nat → Option (Nat × Nat)
  | 0, sideAtLevel, offset => some (sideAtLevel, offset)
  | k + 1, sideAtLevel, offset => do
      let s ← shellSizeChecked dimension sideAtLevel
      peelLevelsChecked dimension k (sideAtLevel - 2) (offset + s)

/-- Checked `partition_sizes`: `pow_u32` twice and the checked product per
partition. -/
def partitionSizesChecked (dimension side : Nat) : Option (List Nat) :=
  (List.range dimension).mapM fun j => do
    let pre ← checkedPow (side - 2) j
    let post ← checkedPow side (dimension - 1 - j)
    let a ← checkedMul 2 pre
    checkedMul a post

/-- Checked `sub_part_size` of `onion_shell_index`/`onion_shell_point`. -/
def subPartSizeChecked (dimension side bd : Nat) : Option Nat := do
  let a ← checkedPow (side - 2) bd
  let b ← checkedPow side (dimension - 1 - bd)
  checkedMul a b

/-- Checked left fold with `checked_mul` starting from 1 (the rectangular
volume folds of `rect.rs`). -/
def checkedProdAux : Nat → List Nat → Option Nat
  | acc, [] => some acc
  | acc, x :: xs => do
      let y ← checkedMul acc x
      checkedProdAux y xs

/-- Checked product of a list of sizes. -/
def checkedProd (l : List Nat) : Option Nat := checkedProdAux 1 l

/-- Checked `size(P_j)` of `rect.rs` (steps 3 and the point-side loop). -/
def rectPartSizeChecked (sizes : List Nat) (j : Nat) : Option Nat := do
  let pre ← checkedProd ((sizes.take j).map (fun l => l - 2))
  let post ← checkedProd (sizes.drop (j + 1))
  let a ← checkedMul (if 2 ≤ sizes.getD j 0 then 2 else 1) pre
  checkedMul a post

/-- Checked accumulation of `offset_p` over `j < iStar` (step 3). -/
def rectOffsetPCheckedAux (sizes : List Nat) : List Nat → Nat → Option Nat
  | [], acc => some acc
  | j :: js, acc => do
      let s ← rectPartSizeChecked sizes j
      let acc2 ← checkedAdd acc s
      rectOffsetPCheckedAux sizes js acc2

/-- Checked `offset_p`. -/
def rectOffsetPChecked (sizes : List Nat) (iStar : Nat) : Option Nat :=
  rectOffsetPCheckedAux sizes (List.range iStar) 0

/-- Checked `face_block` (step 4). -/
def rectFaceBlockChecked (sizes : List Nat) (iStar : Nat) : Option Nat := do
  let pre ← checkedProd ((sizes.take iStar).map (fun l => l - 2))
  let post ← checkedProd (sizes.drop (iStar + 1))
  checkedMul pre post

/-- Checked `onion_index_rect`. -/
def onionIndexRectChecked : Nat → List Nat → List Nat → Option Nat
  | 0, _, _ => none
  | fuel + 1, sizes, p =>
      if sizes.length = 0 then some 0
      else if sizes.length = 1 then some (p.getD 0 0)
      else do
        let total ← checkedProd sizes
        let innerVol ← checkedProd (sizes.map (fun l => l - 2))
        let outer := total - innerVol
        if (List.zip sizes p).all (fun lq =>
            decide (2 ≤ lq.1) && decide (lq.2 ≠ 0) && decide (lq.2 + 1 ≠ lq.1)) then do
          let r ← onionIndexRectChecked fuel (sizes.map (fun l => l - 2))
            (p.map (fun q => q - 1))
          some (outer + r)
        else do
          let iStar := rectFirstBoundary sizes p
          let offsetP ← rectOffsetPChecked sizes iStar
          let faceBlock ← rectFaceBlockChecked sizes iStar
          let offsetSub :=
            if 2 ≤ sizes.getD iStar 0 ∧ p.getD iStar 0 = sizes.getD iStar 0 - 1 then
              faceBlock
            else 0
          let iFace ← onionIndexRectChecked fuel
            ((sizes.take iStar).map (fun l => l - 2) ++ sizes.drop (iStar + 1))
            ((p.take iStar).map (fun q => q - 1) ++ p.drop (iStar + 1))
          some (offsetP + offsetSub + iFace)

/-- Checked partition search of `onion_point_rect`. -/
def rectFindPartitionCheckedAux (sizes : List Nat) :
    Nat → Nat → Nat → Option (Nat × Nat)
  | 0, j, index => some (j, index)
  | steps + 1, j, index => do
      let s ← rectPartSizeChecked sizes j
      if index < s then some (j, index)
      else rectFindPartitionCheckedAux sizes steps (j + 1) (index - s)

/-- Checked `onion_point_rect`. -/
def onionPointRectChecked : Nat → List Nat → Nat → Option (List Nat)
  | 0, _, _ => none
  | fuel + 1, sizes, index =>
      if sizes.length = 0 then some []
      else if sizes.length = 1 then some [index]
      else do
        let total ← checkedProd sizes
        let innerVol ← checkedProd (sizes.map (fun l => l - 2))
        let outer := total - innerVol
        if outer ≤ index then do
          let pInner ← onionPointRectChecked fuel (sizes.map (fun l => l - 2))
            (index - outer)
          some (pInner.map (fun v => v + 1))
        else do
          let sel ← rectFindPartitionCheckedAux sizes sizes.length 0 index
          let faceBlock ← rectFaceBlockChecked sizes sel.1
          let hs :=
            if 2 ≤ sizes.getD sel.1 0 then
              if sel.2 < faceBlock then (false, sel.2) else (true, sel.2 - faceBlock)
            else (false, sel.2)
          let faceCoords ← onionPointRectChecked fuel
            ((sizes.take sel.1).map (fun l => l - 2) ++ sizes.drop (sel.1 + 1)) hs.2
          let coordI :=
            if 2 ≤ sizes.getD sel.1 0 then
              if hs.1 then sizes.getD sel.1 0 - 1 else 0
            else 0
          some (((faceCoords.take sel.1).map (fun v => v + 1)) ++
            coordI :: faceCoords.drop sel.1)

/-- Checked `onion_shell_index`. -/
def onionShellIndexChecked (dimension side : Nat) (localP : List Nat) :
    Option Nat :=
  if side = 1 then some 0
  else if side = 2 then some (onionIndexL2 dimension localP)
  else if dimension = 1 then some (localP.getD 0 0)
  else if dimension = 2 then some (onionIndex2d side localP)
  else do
    let bd := firstBoundary localP side
    let offsets ← partitionSizesChecked dimension side
    let offsetP := (offsets.take bd.1).sum
    let subPartSize ← subPartSizeChecked dimension side bd.1
    let offsetSub := if bd.2 then subPartSize else 0
    let fs := faceSizes dimension side bd.1
    let within ← onionIndexRectChecked (rectFuel fs) fs
      (faceCoordsFromPoint localP bd.1)
    some (offsetP + offsetSub + within)

/-- Checked `onion_shell_point`. -/
def onionShellPointChecked (dimension side index : Nat) : Option (List Nat) :=
  if side = 1 then some (List.replicate dimension 0)
  else if side = 2 then some (onionPointL2 dimension index)
  else if dimension = 1 then some [index]
  else if dimension = 2 then some (onionPoint2d side index)
  else do
    let partitions ← partitionSizesChecked dimension side
    let sel := selectPartition partitions index
    let subPartSize ← subPartSizeChecked dimension side sel.1
    let hs :=
      if sel.2 < subPartSize then (false, sel.2) else (true, sel.2 - subPartSize)
    let fs := faceSizes dimension side sel.1
    let fc ← onionPointRectChecked (rectFuel fs) fs hs.2
    some (rebuildFromFace fc sel.1 side hs.1)

/-- Checked shell-decomposition path of `onion_index_nd`. -/
def onionIndexGenericChecked (dimension side : Nat) (p : List Nat) :
    Option Nat := do
  let level := ((p.map (fun c => min c (side - 1 - c))).min?).getD 0
  let res ← peelLevelsChecked dimension level side 0
  let within ← onionShellIndexChecked dimension res.1
    (p.map (fun c => c - level))
  some (res.2 + within)

/-- Checked shell-decomposition path of `onion_point_nd`. -/
def onionPointGenericChecked (dimension side index : Nat) :
    Option (List Nat) := do
  let shell ← shellForIndexChecked dimension side index
  let localP ← onionShellPointChecked dimension shell.side shell.indexWithin
  some (localP.map (fun c => c + shell.level))

/-- Checked `onion_index_nd(2, …)` as called by the 3D specialisation. -/
def onionIndexNd2Checked (side : Nat) (p : List Nat) : Option Nat :=
  if side = 0 then some 0 else onionIndexGenericChecked 2 side p

/-- Checked `onion_point_nd(2, …)` as called by the 3D specialisation. -/
def onionPointNd2Checked (side index : Nat) : Option (List Nat) :=
  if side = 0 then some [] else onionPointGenericChecked 2 side index

/-- Checked `onion_index_3d`: every `pow_u32` (`cube_volume`, face and
rectangle areas) is checked at the exact point the source computes it. -/
def onionIndex3dChecked (sideLength : Nat) (point : List Nat) : Option Nat := do
  let layer := ((point.map (fun c => min c (sideLength - 1 - c))).min?).getD 0
  let inner := sideLength - layer * 2
  if inner ≤ 1 then do
    let cv ← checkedPow sideLength 3
    some (cv - 1)
  else do
    let a := point.getD 0 0 - layer
    let b := point.getD 1 0 - layer
    let c := point.getD 2 0 - layer
    let cv ← checkedPow sideLength 3
    let ci ← checkedPow inner 3
    let off0 := cv - ci
    let faceArea ← checkedPow inner 2
    if a = 0 then do
      let idx ← onionIndexNd2Checked inner [b, c]
      some (off0 + idx)
    else if a = inner - 1 then do
      let idx ← onionIndexNd2Checked inner [b, c]
      some (off0 + faceArea + idx)
    else do
      let off2 := off0 + 2 * faceArea
      let im2 := inner - 2
      if im2 = 0 then some off2
      else if b = 0 ∧ c = 0 then some (off2 + (a - 1))
      else do
        let off3 := off2 + im2
        if b = 0 ∧ 0 < c ∧ c < inner - 1 then do
          let idx ← onionIndexNd2Checked im2 [a - 1, c - 1]
          some (off3 + idx)
        else do
          let ra1 ← checkedPow im2 2
          let off4 := off3 + ra1
          if b = 0 ∧ c = inner - 1 then some (off4 + (a - 1))
          else do
            let off5 := off4 + im2
            if b = inner - 1 ∧ c = 0 then some (off5 + (a - 1))
            else do
              let off6 := off5 + im2
              if b = inner - 1 ∧ 0 < c ∧ c < inner - 1 then do
                let idx ← onionIndexNd2Checked im2 [a - 1, c - 1]
                some (off6 + idx)
              else do
                let ra2 ← checkedPow im2 2
                let off7 := off6 + ra2
                if b = inner - 1 ∧ c = inner - 1 then some (off7 + (a - 1))
                else do
                  let off8 := off7 + im2
                  if c = 0 then do
                    let idx ← onionIndexNd2Checked im2 [a - 1, b - 1]
                    some (off8 + idx)
                  else do
                    let ra3 ← checkedPow im2 2
                    let idx ← onionIndexNd2Checked im2 [a - 1, b - 1]
                    some (off8 + ra3 + idx)

/-- Checked shell-peeling loop of `onion_point_3d`. -/
def shellLoop3dChecked : Nat → Nat → Nat → Nat → Option (Nat × Nat × Nat)
  | 0, _, _, _ => none
  | fuel + 1, currentLen, remaining, layer => do
      let cv ← checkedPow currentLen 3
      let cn ← checkedPow (currentLen - 2) 3
      let ss := cv - cn
      if remaining < ss then some (remaining, layer, currentLen)
      else shellLoop3dChecked fuel (currentLen - 2) (remaining - ss) (layer + 1)

/-- Checked `onion_point_3d`. -/
def onionPoint3dChecked (sideLength index : Nat) : Option (List Nat) := do
  let res ← shellLoop3dChecked (sideLength + 1) sideLength index 0
  let r0 := res.1
  let layer := res.2.1
  let currentLen := res.2.2
  if currentLen ≤ 1 then some [layer, layer, layer]
  else do
    let inner := currentLen
    let im2 := inner - 2
    let faceArea ← checkedPow inner 2
    if r0 < faceArea then do
      let yz ← onionPointNd2Checked inner r0
      some [layer, yz.getD 0 0 + layer, yz.getD 1 0 + layer]
    else do
      let r1 := r0 - faceArea
      if r1 < faceArea then do
        let yz ← onionPointNd2Checked inner r1
        some [layer + inner - 1, yz.getD 0 0 + layer, yz.getD 1 0 + layer]
      else do
        let r2 := r1 - faceArea
        if im2 = 0 then some [layer, layer, layer + inner - 1]
        else if r2 < im2 then some [layer + 1 + r2, layer, layer]
        else do
          let r3 := r2 - im2
          let rectArea ← checkedPow im2 2
          if r3 < rectArea then do
            let cs ← onionPointNd2Checked im2 r3
            some [layer + 1 + cs.getD 0 0, layer, layer + 1 + cs.getD 1 0]
          else do
            let r4 := r3 - rectArea
            if r4 < im2 then some [layer + 1 + r4, layer, layer + inner - 1]
            else do
              let r5 := r4 - im2
              if r5 < im2 then some [layer + 1 + r5, layer + inner - 1, layer]
              else do
                let r6 := r5 - im2
                if r6 < rectArea then do
                  let cs ← onionPointNd2Checked im2 r6
                  some [layer + 1 + cs.getD 0 0, layer + inner - 1, layer + 1 + cs.getD 1 0]
                else do
                  let r7 := r6 - rectArea
                  if r7 < im2 then
                    some [layer + 1 + r7, layer + inner - 1, layer + inner - 1]
                  else do
                    let r8 := r7 - im2
                    if r8 < rectArea then do
                      let cs ← onionPointNd2Checked im2 r8
                      some [layer + 1 + cs.getD 0 0, layer + 1 + cs.getD 1 0, layer]
                    else do
                      let r9 := r8 - rectArea
                      let cs ← onionPointNd2Checked im2 r9
                      some [layer + 1 + cs.getD 0 0, layer + 1 + cs.getD 1 0,
                        layer + inner - 1]

/-- Checked `onion_index_nd`. -/
def onionIndexNdChecked (dimension side : Nat) (p : List Nat) : Option Nat :=
  if dimension = 0 ∨ side = 0 then some 0
  else if dimension = 3 ∧ 2 < side then onionIndex3dChecked side p
  else onionIndexGenericChecked dimension side p

/-- Checked `onion_point_nd`. -/
def onionPointNdChecked (dimension side index : Nat) : Option (List Nat) :=
  if dimension = 0 ∨ side = 0 then some []
  else if dimension = 3 ∧ 2 < side then onionPoint3dChecked side index
  else onionPointGenericChecked dimension side index

lemma checkedMul_eq {a b : Nat} (h : a * b ≤ u32Max) :
    checkedMul a b = some (a * b) := by
  unfold checkedMul
  rw [if_pos h]

lemma checkedAdd_eq {a b : Nat} (h : a + b ≤ u32Max) :
    checkedAdd a b = some (a + b) := by
  unfold checkedAdd
  rw [if_pos h]

lemma checkedPow_eq {b e : Nat} (h : b ^ e ≤ u32Max) :
    checkedPow b e = some (b ^ e) := by
  unfold checkedPow
  rw [if_pos h]

lemma two_le_u32Max : 2 ≤ u32Max := by
  unfold u32Max
  norm_num

lemma pow_le_u32Max_of_le {a b n N : Nat} (hab : a ≤ b) (hnN : n ≤ N)
    (hb : 1 ≤ b) (h : b ^ N ≤ u32Max) : a ^ n ≤ u32Max :=
  le_trans (le_trans (Nat.pow_le_pow_left hab n) (Nat.pow_le_pow_right hb hnN)) h

lemma two_mul_pow_le_u32Max {S m N : Nat} (hS : 1 ≤ S) (hmn : m + 1 ≤ N)
    (hfit : S ^ N ≤ u32Max) : 2 * S ^ m ≤ u32Max := by
  rcases Nat.lt_or_ge S 2 with h2 | h2
  · have hS1 : S = 1 := by omega
    subst hS1
    simp only [one_pow]
    exact two_le_u32Max
  · have h1 : 2 * S ^ m ≤ S * S ^ m := by
      exact Nat.mul_le_mul_right _ h2
    have h2p : S * S ^ m = S ^ (m + 1) := by ring
    have h3 : S ^ (m + 1) ≤ S ^ N := Nat.pow_le_pow_right (by omega) hmn
    omega

lemma shellSizeChecked_eq {d side : Nat} (h : side ^ d ≤ u32Max) :
    shellSizeChecked d side = some (shellSize d side) := by
  unfold shellSizeChecked shellSize powU32
  by_cases hz : side = 0
  · rw [if_pos hz, if_pos hz]
  · rw [if_neg hz, if_neg hz, checkedPow_eq h,
      checkedPow_eq (le_trans (Nat.pow_le_pow_left (by omega) d) h)]
    rfl

lemma foldl_mul_one (l : List Nat) : l.foldl (· * ·) 1 = l.prod :=
  (List.prod_eq_foldl).symm

lemma prod_map_sub_two_le (l : List Nat) :
    (l.map (fun e => e - 2)).prod ≤ l.prod := by
  induction l with
  | nil => simp
  | cons x xs ih =>
      simp only [List.map_cons, List.prod_cons]
      exact Nat.mul_le_mul (by omega) ih

lemma prod_le_pow {l : List Nat} {S : Nat} (h : ∀ e ∈ l, e ≤ S) :
    l.prod ≤ S ^ l.length := by
  induction l with
  | nil => simp
  | cons x xs ih =>
      simp only [List.prod_cons, List.length_cons, pow_succ]
      have hx : x ≤ S := h x (List.mem_cons_self _ _)
      have hxs : xs.prod ≤ S ^ xs.length := ih (fun e he => h e (List.mem_cons_of_mem _ he))
      calc x * xs.prod ≤ S * S ^ xs.length := Nat.mul_le_mul hx hxs
      _ = S ^ xs.length * S := Nat.mul_comm _ _

lemma prod_pos {l : List Nat} (h : ∀ e ∈ l, 1 ≤ e) : 1 ≤ l.prod := by
  induction l with
  | nil => simp
  | cons x xs ih =>
      simp only [List.prod_cons]
      have hx : 1 ≤ x := h x (List.mem_cons_self _ _)
      have hxs : 1 ≤ xs.prod := ih (fun e he => h e (List.mem_cons_of_mem _ he))
      calc 1 = 1 * 1 := rfl
      _ ≤ x * xs.prod := Nat.mul_le_mul hx hxs

lemma checkedProdAux_eq {B : Nat} (hB : 1 ≤ B) :
    ∀ (l : List Nat) (acc : Nat), (∀ e ∈ l, e ≤ B) →
      acc * B ^ l.length ≤ u32Max →
      checkedProdAux acc l = some (acc * l.prod) := by
  intro l
  induction l with
  | nil =>
      intro acc _ _
      simp [checkedProdAux]
  | cons x xs ih =>
      intro acc hmem hbound
      have hx : x ≤ B := hmem x (List.mem_cons_self _ _)
      have hpow1 : (1 : Nat) ≤ B ^ xs.length := Nat.one_le_pow _ _ (by omega)
      have hstep : acc * B ^ (x :: xs).length = acc * B * B ^ xs.length := by
        simp only [List.length_cons]
        ring
      have haccx : acc * x ≤ u32Max := by
        have h1 : acc * x ≤ acc * B := Nat.mul_le_mul_left _ hx
        have h2 : acc * B = acc * B * 1 := by ring
        have h3 : acc * B * 1 ≤ acc * B * B ^ xs.length :=
          Nat.mul_le_mul_left _ hpow1
        omega
      have hrec : acc * x * B ^ xs.length ≤ u32Max := by
        have h1 : acc * x * B ^ xs.length ≤ acc * B * B ^ xs.length :=
          Nat.mul_le_mul_right _ (Nat.mul_le_mul_left _ hx)
        omega
      unfold checkedProdAux
      rw [checkedMul_eq haccx]
      simp only [Option.bind_eq_bind, Option.some_bind]
      rw [ih (acc * x) (fun e he => hmem e (List.mem_cons_of_mem _ he)) hrec]
      rw [List.prod_cons, Nat.mul_assoc]

lemma checkedProd_eq {B : Nat} {l : List Nat} (hB : 1 ≤ B)
    (hmem : ∀ e ∈ l, e ≤ B) (hbound : B ^ l.length ≤ u32Max) :
    checkedProd l = some l.prod := by
  unfold checkedProd
  rw [checkedProdAux_eq hB l 1 hmem (by omega), Nat.one_mul]

lemma rectPartSizeChecked_eq {S : Nat} (sizes : List Nat) (j : Nat)
    (hS : 1 ≤ S) (hmem : ∀ e ∈ sizes, e ≤ S) (hj : j < sizes.length)
    (hfitlen : S ^ sizes.length ≤ u32Max)
    (hfit2 : 2 * S ^ (sizes.length - 1) ≤ u32Max) :
    rectPartSizeChecked sizes j = some (rectPartSize sizes j) := by
  have hpremem : ∀ e ∈ (sizes.take j).map (fun l => l - 2), e ≤ S := by
    intro e he
    obtain ⟨x, hx, rfl⟩ := List.mem_map.mp he
    exact le_trans (by omega) (hmem x (List.take_subset _ _ hx))
  have hpostmem : ∀ e ∈ sizes.drop (j + 1), e ≤ S :=
    fun e he => hmem e (List.drop_subset _ _ he)
  have hprelen : ((sizes.take j).map (fun l => l - 2)).length = j := by
    simp [List.length_take]
    omega
  have hpostlen : (sizes.drop (j + 1)).length = sizes.length - 1 - j := by
    simp [List.length_drop]
    omega
  have hpre := checkedProd_eq hS hpremem
    (by rw [hprelen]; exact le_trans (Nat.pow_le_pow_right hS (by omega)) hfitlen)
  have hpost := checkedProd_eq hS hpostmem
    (by rw [hpostlen]; exact le_trans (Nat.pow_le_pow_right hS (by omega)) hfitlen)
  have hprele : ((sizes.take j).map (fun l => l - 2)).prod ≤ S ^ j := by
    have h := prod_le_pow hpremem
    rwa [hprelen] at h
  have hpostle : (sizes.drop (j + 1)).prod ≤ S ^ (sizes.length - 1 - j) := by
    have h := prod_le_pow hpostmem
    rwa [hpostlen] at h
  have hsf : (if 2 ≤ sizes.getD j 0 then 2 else 1) ≤ 2 := by split <;> omega
  have hmul1 : (if 2 ≤ sizes.getD j 0 then 2 else 1)
      * ((sizes.take j).map (fun l => l - 2)).prod ≤ u32Max := by
    calc (if 2 ≤ sizes.getD j 0 then 2 else 1)
          * ((sizes.take j).map (fun l => l - 2)).prod
        ≤ 2 * S ^ j := Nat.mul_le_mul hsf hprele
    _ ≤ 2 * S ^ (sizes.length - 1) :=
        Nat.mul_le_mul_left _ (Nat.pow_le_pow_right hS (by omega))
    _ ≤ u32Max := hfit2
  have hexp : j + (sizes.length - 1 - j) = sizes.length - 1 := by omega
  have hmul2 : (if 2 ≤ sizes.getD j 0 then 2 else 1)
      * ((sizes.take j).map (fun l => l - 2)).prod
      * (sizes.drop (j + 1)).prod ≤ u32Max := by
    calc (if 2 ≤ sizes.getD j 0 then 2 else 1)
          * ((sizes.take j).map (fun l => l - 2)).prod
          * (sizes.drop (j + 1)).prod
        ≤ 2 * S ^ j * S ^ (sizes.length - 1 - j) :=
          Nat.mul_le_mul (Nat.mul_le_mul hsf hprele) hpostle
    _ = 2 * S ^ (sizes.length - 1) := by rw [Nat.mul_assoc, ← pow_add, hexp]
    _ ≤ u32Max := hfit2
  unfold rectPartSizeChecked
  rw [hpre]
  simp only [Option.bind_eq_bind, Option.some_bind]
  rw [hpost]
  simp only [Option.some_bind]
  rw [checkedMul_eq hmul1]
  simp only [Option.some_bind]
  rw [checkedMul_eq hmul2]
  unfold rectPartSize
  rw [foldl_mul_one, foldl_mul_one]

lemma rectFaceBlockChecked_eq {S : Nat} (sizes : List Nat) (iStar : Nat)
    (hS : 1 ≤ S) (hmem : ∀ e ∈ sizes, e ≤ S) (hi : iStar < sizes.length)
    (hfitlen : S ^ sizes.length ≤ u32Max) :
    rectFaceBlockChecked sizes iStar = some (rectFaceBlock sizes iStar) := by
  have hpremem : ∀ e ∈ (sizes.take iStar).map (fun l => l - 2), e ≤ S := by
    intro e he
    obtain ⟨x, hx, rfl⟩ := List.mem_map.mp he
    exact le_trans (by omega) (hmem x (List.take_subset _ _ hx))
  have hpostmem : ∀ e ∈ sizes.drop (iStar + 1), e ≤ S :=
    fun e he => hmem e (List.drop_subset _ _ he)
  have hprelen : ((sizes.take iStar).map (fun l => l - 2)).length = iStar := by
    simp [List.length_take]
    omega
  have hpostlen : (sizes.drop (iStar + 1)).length = sizes.length - 1 - iStar := by
    simp [List.length_drop]
    omega
  have hpre := checkedProd_eq hS hpremem
    (by rw [hprelen]; exact le_trans (Nat.pow_le_pow_right hS (by omega)) hfitlen)
  have hpost := checkedProd_eq hS hpostmem
    (by rw [hpostlen]; exact le_trans (Nat.pow_le_pow_right hS (by omega)) hfitlen)
  have hprele : ((sizes.take iStar).map (fun l => l - 2)).prod ≤ S ^ iStar := by
    have h := prod_le_pow hpremem
    rwa [hprelen] at h
  have hpostle : (sizes.drop (iStar + 1)).prod ≤ S ^ (sizes.length - 1 - iStar) := by
    have h := prod_le_pow hpostmem
    rwa [hpostlen] at h
  have hexp : iStar + (sizes.length - 1 - iStar) = sizes.length - 1 := by omega
  have hmul : ((sizes.take iStar).map (fun l => l - 2)).prod
      * (sizes.drop (iStar + 1)).prod ≤ u32Max := by
    calc ((sizes.take iStar).map (fun l => l - 2)).prod
          * (sizes.drop (iStar + 1)).prod
        ≤ S ^ iStar * S ^ (sizes.length - 1 - iStar) := Nat.mul_le_mul hprele hpostle
    _ = S ^ (sizes.length - 1) := by rw [← pow_add, hexp]
    _ ≤ u32Max := le_trans (Nat.pow_le_pow_right hS (by omega)) hfitlen
  unfold rectFaceBlockChecked
  rw [hpre]
  simp only [Option.bind_eq_bind, Option.some_bind]
  rw [hpost]
  simp only [Option.some_bind]
  rw [checkedMul_eq hmul]
  unfold rectFaceBlock
  rw [foldl_mul_one, foldl_mul_one]

lemma rectPartSize_cons_succ (x : Nat) (xs : List Nat) (j : Nat) :
    rectPartSize (x :: xs) (j + 1) = (x - 2) * rectPartSize xs j := by
  unfold rectPartSize
  simp only [List.getD_cons_succ, List.take_succ_cons, List.drop_succ_cons,
    List.map_cons, foldl_mul_one, List.prod_cons]
  ring

lemma rectPartSize_cons_zero (x : Nat) (xs : List Nat) :
    rectPartSize (x :: xs) 0 = (if 2 ≤ x then 2 else 1) * xs.prod := by
  unfold rectPartSize
  simp only [List.getD_cons_zero, List.take_zero, List.map_nil, List.drop_succ_cons,
    List.drop_zero, List.foldl_nil, foldl_mul_one]
  ring

lemma rectPartSize_sum (sizes : List Nat) (hpos : ∀ e ∈ sizes, 1 ≤ e) :
    ((List.range sizes.length).map (rectPartSize sizes)).sum
      = sizes.prod - (sizes.map (fun l => l - 2)).prod := by
  induction sizes with
  | nil => simp
  | cons x xs ih =>
      have hx : 1 ≤ x := hpos x (List.mem_cons_self _ _)
      have hxs : ∀ e ∈ xs, 1 ≤ e := fun e he => hpos e (List.mem_cons_of_mem _ he)
      have hI : (xs.map (fun l => l - 2)).prod ≤ xs.prod := prod_map_sub_two_le xs
      have hshift :
          ((List.range xs.length).map fun j => rectPartSize (x :: xs) (j + 1)).sum
            = (x - 2) * ((List.range xs.length).map (rectPartSize xs)).sum := by
        have hmap : List.map (fun j => rectPartSize (x :: xs) (j + 1)) (List.range xs.length)
            = List.map (fun j => (x - 2) * rectPartSize xs j) (List.range xs.length) := by
          apply List.map_congr_left
          intro j _
          exact rectPartSize_cons_succ x xs j
        rw [hmap, List.sum_map_mul_left]
      have hsplit :
          ((List.range (x :: xs).length).map (rectPartSize (x :: xs))).sum
            = rectPartSize (x :: xs) 0
              + ((List.range xs.length).map fun j => rectPartSize (x :: xs) (j + 1)).sum := by
        simp only [List.length_cons]
        rw [List.range_succ_eq_map]
        simp only [List.map_cons, List.sum_cons, List.map_map]
        rfl
      rw [hsplit, hshift, rectPartSize_cons_zero, ih hxs, List.prod_cons,
        List.map_cons, List.prod_cons]
      have hmulsub : (x - 2) * (xs.prod - (xs.map (fun l => l - 2)).prod)
          = (x - 2) * xs.prod - (x - 2) * (xs.map (fun l => l - 2)).prod :=
        Nat.mul_sub _ _ _
      have hIle : (x - 2) * (xs.map (fun l => l - 2)).prod ≤ (x - 2) * xs.prod :=
        Nat.mul_le_mul_left _ hI
      by_cases h2x : 2 ≤ x
      · rw [if_pos h2x]
        have hxP : x * xs.prod = (x - 2) * xs.prod + 2 * xs.prod := by
          have hxeq : x = (x - 2) + 2 := by omega
          calc x * xs.prod = ((x - 2) + 2) * xs.prod := by rw [← hxeq]
          _ = (x - 2) * xs.prod + 2 * xs.prod := Nat.add_mul _ _ _
        omega
      · rw [if_neg h2x]
        have hx2 : x - 2 = 0 := by omega
        have hx1 : x = 1 := by omega
        rw [hx2, hx1]
        simp

lemma sum_map_range_prefix_le (f : Nat → Nat) :
    ∀ {i n : Nat}, i ≤ n →
      ((List.range i).map f).sum ≤ ((List.range n).map f).sum := by
  intro i n h
  induction n with
  | zero =>
      have hi : i = 0 := by omega
      subst hi
      exact le_refl _
  | succ n ih =>
      rcases Nat.lt_or_ge i (n + 1) with hlt | hge
      · have h1 : ((List.range i).map f).sum ≤ ((List.range n).map f).sum :=
          ih (by omega)
        have h2 : ((List.range (n + 1)).map f).sum
            = ((List.range n).map f).sum + f n := by
          rw [List.range_succ]
          simp
        omega
      · have hi : i = n + 1 := by omega
        subst hi
        exact le_refl _

lemma rectOffsetPCheckedAux_eq {S : Nat} (sizes : List Nat)
    (hS : 1 ≤ S) (hmem : ∀ e ∈ sizes, e ≤ S)
    (hfitlen : S ^ sizes.length ≤ u32Max)
    (hfit2 : 2 * S ^ (sizes.length - 1) ≤ u32Max) :
    ∀ (js : List Nat) (acc : Nat), (∀ j ∈ js, j < sizes.length) →
      acc + (js.map (rectPartSize sizes)).sum ≤ u32Max →
      rectOffsetPCheckedAux sizes js acc
        = some (acc + (js.map (rectPartSize sizes)).sum) := by
  intro js
  induction js with
  | nil =>
      intro acc _ _
      simp [rectOffsetPCheckedAux]
  | cons j js ih =>
      intro acc hjs hbound
      have hsum : (List.map (rectPartSize sizes) (j :: js)).sum
          = rectPartSize sizes j + (List.map (rectPartSize sizes) js).sum := by
        simp
      unfold rectOffsetPCheckedAux
      rw [rectPartSizeChecked_eq sizes j hS hmem (hjs j (List.mem_cons_self _ _))
        hfitlen hfit2]
      simp only [Option.bind_eq_bind, Option.some_bind]
      rw [checkedAdd_eq (by omega)]
      simp only [Option.some_bind]
      rw [ih (acc + rectPartSize sizes j)
        (fun a ha => hjs a (List.mem_cons_of_mem _ ha)) (by omega)]
      rw [hsum]
      congr 1
      omega

lemma rectOffsetPChecked_eq {S : Nat} (sizes : List Nat) (iStar : Nat)
    (hS : 1 ≤ S) (hmem : ∀ e ∈ sizes, e ≤ S) (hpos : ∀ e ∈ sizes, 1 ≤ e)
    (hi : iStar ≤ sizes.length)
    (hfitlen : S ^ sizes.length ≤ u32Max)
    (hfit2 : 2 * S ^ (sizes.length - 1) ≤ u32Max) :
    rectOffsetPChecked sizes iStar
      = some (((List.range iStar).map (rectPartSize sizes)).sum) := by
  have hsumall := rectPartSize_sum sizes hpos
  have hprod : sizes.prod ≤ S ^ sizes.length := prod_le_pow hmem
  have hbound : ((List.range iStar).map (rectPartSize sizes)).sum ≤ u32Max := by
    have h1 := sum_map_range_prefix_le (rectPartSize sizes) hi
    omega
  unfold rectOffsetPChecked
  rw [rectOffsetPCheckedAux_eq sizes hS hmem hfitlen hfit2 (List.range iStar) 0
    (fun j hj => by have := List.mem_range.mp hj; omega) (by omega)]
  rw [Nat.zero_add]

lemma rectFirstBoundaryAux_spec :
    ∀ (sz pz : List Nat) (i0 : Nat),
      sz.length = pz.length →
      (∀ k, k < sz.length → pz.getD k 0 < sz.getD k 0) →
      (∃ k, k < sz.length ∧ (pz.getD k 0 = 0 ∨ pz.getD k 0 + 1 = sz.getD k 0)) →
      ∃ i, i < sz.length ∧ rectFirstBoundaryAux (List.zip sz pz) i0 = i0 + i ∧
        (pz.getD i 0 = 0 ∨ pz.getD i 0 + 1 = sz.getD i 0) ∧
        (∀ k, k < i → 1 ≤ pz.getD k 0 ∧ pz.getD k 0 + 2 ≤ sz.getD k 0) := by
  intro sz
  induction sz with
  | nil =>
      intro pz i0 _ _ hex
      obtain ⟨k, hk, _⟩ := hex
      simp at hk
  | cons l sz ih =>
      intro pz i0 hlen hval hex
      cases pz with
      | nil => simp at hlen
      | cons q pz =>
          have hq : q < l := by
            have := hval 0 (by simp)
            simpa using this
          have hl : ¬(l = 0) := by omega
          simp only [List.zip_cons_cons, rectFirstBoundaryAux, if_neg hl]
          by_cases hbound : q = 0 ∨ q = l - 1
          · rw [if_pos hbound]
            refine ⟨0, by simp, by omega, ?_, by omega⟩
            simp only [List.getD_cons_zero]
            rcases hbound with h | h
            · exact Or.inl h
            · exact Or.inr (by omega)
          · rw [if_neg hbound]
            have hex2 : ∃ k, k < sz.length ∧
                (pz.getD k 0 = 0 ∨ pz.getD k 0 + 1 = sz.getD k 0) := by
              obtain ⟨k, hk, hb⟩ := hex
              cases k with
              | zero =>
                  simp only [List.getD_cons_zero] at hb
                  exact absurd (by omega : q = 0 ∨ q = l - 1) hbound
              | succ k =>
                  simp only [List.getD_cons_succ] at hb
                  exact ⟨k, by simpa using hk, hb⟩
            have hval2 : ∀ k, k < sz.length → pz.getD k 0 < sz.getD k 0 := by
              intro k hk
              have := hval (k + 1) (by simpa using hk)
              simpa using this
            obtain ⟨i, hi, heq, hb, hpre⟩ := ih pz (i0 + 1) (by simpa using hlen)
              hval2 hex2
            refine ⟨i + 1, by simpa using hi,
              by simp only [List.zip] at heq ⊢; omega, ?_, ?_⟩
            · simpa using hb
            · intro k hk
              cases k with
              | zero =>
                  simp only [List.getD_cons_zero]
                  omega
              | succ k =>
                  simp only [List.getD_cons_succ]
                  exact hpre k (by omega)

lemma isInner_false_boundary (sizes p : List Nat)
    (hlen : sizes.length = p.length)
    (hval : ∀ k, k < sizes.length → p.getD k 0 < sizes.getD k 0)
    (hni : ¬((List.zip sizes p).all (fun lq =>
      decide (2 ≤ lq.1) && decide (lq.2 ≠ 0) && decide (lq.2 + 1 ≠ lq.1)) = true)) :
    ∃ k, k < sizes.length ∧ (p.getD k 0 = 0 ∨ p.getD k 0 + 1 = sizes.getD k 0) := by
  rw [List.all_eq_true] at hni
  push_neg at hni
  obtain ⟨x, hmem, hx⟩ := hni
  obtain ⟨k, hk, hEq⟩ := List.mem_iff_getElem.mp hmem
  have hklen : k < sizes.length := by
    have := hk
    simp [List.length_zip] at this
    omega
  have hkp : k < p.length := by omega
  have hzip : (List.zip sizes p)[k] = (sizes[k], p[k]) := by
    simp [List.getElem_zip]
  rw [hzip] at hEq
  have hs : sizes.getD k 0 = sizes[k] := List.getD_eq_getElem sizes 0 hklen
  have hp : p.getD k 0 = p[k] := List.getD_eq_getElem p 0 hkp
  have hvk := hval k hklen
  refine ⟨k, hklen, ?_⟩
  rw [hs, hp]
  by_contra hcon
  push_neg at hcon
  apply hx
  rw [← hEq]
  simp only [Bool.and_eq_true, decide_eq_true_eq]
  refine ⟨⟨by omega, by omega⟩, by omega⟩

lemma selectPartitionAux_spec :
    ∀ (parts : List Nat) (j0 index : Nat), index < parts.sum →
      ∃ i, i < parts.length ∧
        selectPartitionAux parts j0 index = (j0 + i, index - (parts.take i).sum) ∧
        (parts.take i).sum ≤ index ∧
        index - (parts.take i).sum < parts.getD i 0 := by
  intro parts
  induction parts with
  | nil =>
      intro j0 index h
      simp at h
  | cons s rest ih =>
      intro j0 index h
      simp only [selectPartitionAux]
      by_cases hlt : index < s
      · rw [if_pos hlt]
        exact ⟨0, by simp, by simp, by simp, by simpa using hlt⟩
      · rw [if_neg hlt]
        have hrest : index - s < rest.sum := by
          simp only [List.sum_cons] at h
          omega
        obtain ⟨i, hi, heq, hle, hlt2⟩ := ih (j0 + 1) (index - s) hrest
        refine ⟨i + 1, by simpa using hi, ?_, ?_, ?_⟩
        · rw [heq]
          have htake : ((s :: rest).take (i + 1)).sum = s + (rest.take i).sum := by
            simp [List.take_succ_cons]
          rw [htake]
          have hj : j0 + 1 + i = j0 + (i + 1) := by omega
          have hsub : index - s - (rest.take i).sum = index - (s + (rest.take i).sum) := by
            omega
          rw [hj, hsub]
        · have htake : ((s :: rest).take (i + 1)).sum = s + (rest.take i).sum := by
            simp [List.take_succ_cons]
          rw [htake]
          omega
        · have htake : ((s :: rest).take (i + 1)).sum = s + (rest.take i).sum := by
            simp [List.take_succ_cons]
          rw [htake]
          simp only [List.getD_cons_succ]
          omega

lemma rectFindPartitionCheckedAux_eq (sizes : List Nat) :
    ∀ (steps j index : Nat),
      (∀ j2, j ≤ j2 → j2 < j + steps →
        rectPartSizeChecked sizes j2 = some (rectPartSize sizes j2)) →
      rectFindPartitionCheckedAux sizes steps j index
        = some (rectFindPartitionAux sizes steps j index) := by
  intro steps
  induction steps with
  | zero => intro j index _; rfl
  | succ steps ih =>
      intro j index hall
      unfold rectFindPartitionCheckedAux rectFindPartitionAux
      rw [hall j (le_refl j) (by omega)]
      simp only [Option.bind_eq_bind, Option.some_bind]
      by_cases hlt : index < rectPartSize sizes j
      · rw [if_pos hlt, if_pos hlt]
      · rw [if_neg hlt, if_neg hlt]
        exact ih (j + 1) (index - rectPartSize sizes j)
          (fun j2 h1 h2 => hall j2 (by omega) (by omega))

lemma rectFindPartitionAux_spec :
    ∀ (steps j0 index : Nat) (sizes : List Nat),
      index < ((List.range steps).map (fun i => rectPartSize sizes (j0 + i))).sum →
      ∃ i r, i < steps ∧ rectFindPartitionAux sizes steps j0 index = (j0 + i, r) ∧
        r < rectPartSize sizes (j0 + i) := by
  intro steps
  induction steps with
  | zero =>
      intro j0 index sizes h
      simp at h
  | succ steps ih =>
      intro j0 index sizes h
      have hsplit :
          ((List.range (steps + 1)).map (fun i => rectPartSize sizes (j0 + i))).sum
            = rectPartSize sizes j0
              + ((List.range steps).map (fun i => rectPartSize sizes (j0 + 1 + i))).sum := by
        rw [List.range_succ_eq_map]
        simp only [List.map_cons, List.sum_cons, List.map_map, Nat.add_zero]
        congr 1
        apply congrArg
        apply List.map_congr_left
        intro i _
        simp only [Function.comp_apply, Nat.succ_eq_add_one]
        congr 1
        omega
      unfold rectFindPartitionAux
      by_cases hlt : index < rectPartSize sizes j0
      · rw [if_pos hlt]
        exact ⟨0, index, by omega, by simp, by simpa using hlt⟩
      · rw [if_neg hlt]
        rw [hsplit] at h
        obtain ⟨i, r, hi, heq, hr⟩ := ih (j0 + 1) (index - rectPartSize sizes j0)
          sizes (by omega)
        refine ⟨i + 1, r, by omega, ?_, ?_⟩
        · rw [heq]
          congr 1
          omega
        · have hj : j0 + 1 + i = j0 + (i + 1) := by omega
          rwa [hj] at hr

lemma sum_map_sub_two_le (l : List Nat) : (l.map (fun e => e - 2)).sum ≤ l.sum := by
  induction l with
  | nil => simp
  | cons x xs ih =>
      simp only [List.map_cons, List.sum_cons]
      omega

lemma sum_map_sub_two_of_ge (l : List Nat) (h : ∀ e ∈ l, 2 ≤ e) :
    (l.map (fun e => e - 2)).sum + 2 * l.length = l.sum := by
  induction l with
  | nil => simp
  | cons x xs ih =>
      have hx : 2 ≤ x := h x (List.mem_cons_self _ _)
      have hxs := ih (fun e he => h e (List.mem_cons_of_mem _ he))
      simp only [List.map_cons, List.sum_cons, List.length_cons]
      omega

lemma fs_sum_le (sizes : List Nat) (i : Nat) (hi : i < sizes.length) :
    ((sizes.take i).map (fun l => l - 2) ++ sizes.drop (i + 1)).sum
      ≤ sizes.sum := by
  rw [List.sum_append]
  have h1 : ((sizes.take i).map (fun l => l - 2)).sum ≤ (sizes.take i).sum :=
    sum_map_sub_two_le _
  have hsplit : (sizes.take i).sum + (sizes.drop i).sum = sizes.sum := by
    rw [← List.sum_append, List.take_append_drop]
  have hdropc : sizes.drop i = sizes[i] :: sizes.drop (i + 1) :=
    List.drop_eq_getElem_cons hi
  have h2 : (sizes.drop i).sum = sizes[i] + (sizes.drop (i + 1)).sum := by
    rw [hdropc, List.sum_cons]
  omega

lemma fs_length (sizes : List Nat) (i : Nat) (hi : i < sizes.length) :
    ((sizes.take i).map (fun l => l - 2) ++ sizes.drop (i + 1)).length
      = sizes.length - 1 := by
  simp only [List.length_append, List.length_map, List.length_take,
    List.length_drop]
  omega

lemma fs_mem_le {S : Nat} (sizes : List Nat) (i : Nat)
    (hmem : ∀ e ∈ sizes, e ≤ S) :
    ∀ e ∈ (sizes.take i).map (fun l => l - 2) ++ sizes.drop (i + 1), e ≤ S := by
  intro e he
  rcases List.mem_append.mp he with h | h
  · obtain ⟨x, hx, rfl⟩ := List.mem_map.mp h
    exact le_trans (by omega) (hmem x (List.take_subset _ _ hx))
  · exact hmem e (List.drop_subset _ _ h)

lemma mem_pos_of_prod_pos {l : List Nat} (h : 1 ≤ l.prod) : ∀ e ∈ l, 1 ≤ e := by
  induction l with
  | nil => simp
  | cons x xs ih =>
      intro e he
      rw [List.prod_cons] at h
      have hx : 1 ≤ x := by
        by_contra hx0
        have : x = 0 := by omega
        rw [this] at h
        simp at h
      have hxs : 1 ≤ xs.prod := by
        by_contra hxs0
        have : xs.prod = 0 := by omega
        rw [this] at h
        simp at h
      rcases List.mem_cons.mp he with rfl | hmem
      · exact hx
      · exact ih hxs e hmem

lemma isInner_true_pairs (sizes p : List Nat) (hlen : sizes.length = p.length)
    (hval : ∀ k, k < sizes.length → p.getD k 0 < sizes.getD k 0)
    (hall : (List.zip sizes p).all (fun lq =>
      decide (2 ≤ lq.1) && decide (lq.2 ≠ 0) && decide (lq.2 + 1 ≠ lq.1)) = true) :
    ∀ k, k < sizes.length →
      3 ≤ sizes.getD k 0 ∧ 1 ≤ p.getD k 0 ∧ p.getD k 0 + 2 ≤ sizes.getD k 0 := by
  intro k hk
  have hkp : k < p.length := by omega
  have hkz : k < (List.zip sizes p).length := by
    simp [List.length_zip]
    omega
  have hmemz : (List.zip sizes p)[k] ∈ List.zip sizes p :=
    List.mem_iff_getElem.mpr ⟨k, hkz, rfl⟩
  have hpair := List.all_eq_true.mp hall _ hmemz
  rw [List.getElem_zip] at hpair
  simp only [Bool.and_eq_true, decide_eq_true_eq] at hpair
  have hs : sizes.getD k 0 = sizes[k] := List.getD_eq_getElem sizes 0 hk
  have hp : p.getD k 0 = p[k] := List.getD_eq_getElem p 0 hkp
  have hv := hval k hk
  rw [hs, hp] at hv ⊢
  obtain ⟨⟨h2l, hq0⟩, hq1⟩ := hpair
  omega

lemma takeMapDrop_getD_lt (f : Nat → Nat) (l : List Nat) (i k : Nat)
    (hi : i ≤ l.length) (hki : k < i) :
    ((l.take i).map f ++ l.drop (i + 1)).getD k 0 = f (l.getD k 0) := by
  have hlen : ((l.take i).map f).length = i := by
    simp [List.length_take]
    omega
  rw [List.getD_append _ _ _ _ (by rw [hlen]; exact hki)]
  have hk1 : k < ((l.take i).map f).length := by rw [hlen]; exact hki
  have hk2 : k < (l.take i).length := by
    simp [List.length_take]
    omega
  have hkl : k < l.length := by omega
  rw [List.getD_eq_getElem _ 0 hk1, List.getD_eq_getElem _ 0 hkl,
    List.getElem_map f, List.getElem_take l]

lemma takeMapDrop_getD_ge (f : Nat → Nat) (l : List Nat) (i k : Nat)
    (hi : i ≤ l.length) (hki : i ≤ k) (hk : k < l.length - 1) :
    ((l.take i).map f ++ l.drop (i + 1)).getD k 0 = l.getD (k + 1) 0 := by
  have hlen : ((l.take i).map f).length = i := by
    simp [List.length_take]
    omega
  rw [List.getD_append_right _ _ _ _ (by rw [hlen]; exact hki), hlen]
  have hkd : k - i < (l.drop (i + 1)).length := by
    simp [List.length_drop]
    omega
  have hkl : k + 1 < l.length := by omega
  rw [List.getD_eq_getElem _ 0 hkd, List.getD_eq_getElem _ 0 hkl,
    List.getElem_drop l]
  simp only [show i + 1 + (k - i) = k + 1 from by omega]

lemma rectPartSize_eq_factor_mul_faceBlock (sizes : List Nat) (j : Nat) :
    rectPartSize sizes j
      = (if 2 ≤ sizes.getD j 0 then 2 else 1) * rectFaceBlock sizes j := by
  unfold rectPartSize rectFaceBlock
  ring

lemma rectFaceBlock_eq_prod (sizes : List Nat) (i : Nat) :
    rectFaceBlock sizes i
      = ((sizes.take i).map (fun l => l - 2) ++ sizes.drop (i + 1)).prod := by
  unfold rectFaceBlock
  rw [List.prod_append, foldl_mul_one, foldl_mul_one]

lemma onionIndexRectChecked_eq {S N : Nat} (hS : 1 ≤ S) (hSN : S ^ N ≤ u32Max) :
    ∀ (fuel : Nat) (sizes p : List Nat),
      sizes.sum + sizes.length < fuel →
      sizes.length ≤ N →
      (∀ e ∈ sizes, e ≤ S) →
      sizes.length = p.length →
      (∀ k, k < sizes.length → p.getD k 0 < sizes.getD k 0) →
      onionIndexRectChecked fuel sizes p = some (onionIndexRect fuel sizes p) := by
  intro fuel
  induction fuel with
  | zero =>
      intro sizes p hfuel _ _ _ _
      omega
  | succ fuel ih =>
      intro sizes p hfuel hlenN hmem hlen hval
      by_cases h0 : sizes.length = 0
      · simp only [onionIndexRectChecked, onionIndexRect, if_pos h0]
      · by_cases h1 : sizes.length = 1
        · simp only [onionIndexRectChecked, onionIndexRect, if_neg h0, if_pos h1]
        · have hlen2 : 2 ≤ sizes.length := by omega
          have hpos : ∀ e ∈ sizes, 1 ≤ e := by
            intro e he
            obtain ⟨k, hk, rfl⟩ := List.mem_iff_getElem.mp he
            have hv := hval k hk
            rw [List.getD_eq_getElem sizes 0 hk] at hv
            omega
          have hfitlen : S ^ sizes.length ≤ u32Max :=
            le_trans (Nat.pow_le_pow_right hS hlenN) hSN
          have hfit2 : 2 * S ^ (sizes.length - 1) ≤ u32Max :=
            two_mul_pow_le_u32Max hS (by omega) hSN
          have hmem2 : ∀ e ∈ sizes.map (fun l => l - 2), e ≤ S := by
            intro e he
            obtain ⟨x, hx, rfl⟩ := List.mem_map.mp he
            exact le_trans (by omega) (hmem x hx)
          have htotal : checkedProd sizes = some sizes.prod :=
            checkedProd_eq hS hmem hfitlen
          have hinner : checkedProd (sizes.map (fun l => l - 2))
              = some (sizes.map (fun l => l - 2)).prod :=
            checkedProd_eq hS hmem2 (by rw [List.length_map]; exact hfitlen)
          simp only [onionIndexRectChecked, onionIndexRect, if_neg h0, if_neg h1]
          rw [htotal]
          simp only [Option.bind_eq_bind, Option.some_bind]
          rw [hinner]
          simp only [Option.some_bind]
          by_cases hin : (List.zip sizes p).all (fun lq =>
              decide (2 ≤ lq.1) && decide (lq.2 ≠ 0) && decide (lq.2 + 1 ≠ lq.1))
              = true
          · rw [if_pos hin, if_pos hin]
            have hpairs := isInner_true_pairs sizes p hlen hval hin
            have h3mem : ∀ e ∈ sizes, 3 ≤ e := by
              intro e he
              obtain ⟨k, hk, rfl⟩ := List.mem_iff_getElem.mp he
              have h3 := (hpairs k hk).1
              rwa [List.getD_eq_getElem sizes 0 hk] at h3
            have hsum := sum_map_sub_two_of_ge sizes
              (fun e he => by have := h3mem e he; omega)
            have hfuel' : (sizes.map (fun l => l - 2)).sum
                + (sizes.map (fun l => l - 2)).length < fuel := by
              rw [List.length_map]
              omega
            have hlen' : (sizes.map (fun l => l - 2)).length
                = (p.map (fun q => q - 1)).length := by
              simp [hlen]
            have hval' : ∀ k, k < (sizes.map (fun l => l - 2)).length →
                (p.map (fun q => q - 1)).getD k 0
                  < (sizes.map (fun l => l - 2)).getD k 0 := by
              intro k hk
              rw [List.length_map] at hk
              have hkp : k < p.length := by omega
              have hgs : (sizes.map (fun l => l - 2)).getD k 0 = sizes[k] - 2 := by
                rw [List.getD_eq_getElem _ 0 (by rw [List.length_map]; exact hk),
                  List.getElem_map]
              have hgp : (p.map (fun q => q - 1)).getD k 0 = p[k] - 1 := by
                rw [List.getD_eq_getElem _ 0 (by rw [List.length_map]; exact hkp),
                  List.getElem_map]
              have hpk := hpairs k hk
              rw [List.getD_eq_getElem sizes 0 hk, List.getD_eq_getElem p 0 hkp]
                at hpk
              rw [hgs, hgp]
              omega
            rw [ih (sizes.map (fun l => l - 2)) (p.map (fun q => q - 1)) hfuel'
              (by rw [List.length_map]; omega) hmem2 hlen' hval']
            simp only [Option.some_bind]
            rw [foldl_mul_one, foldl_mul_one]
          · rw [if_neg hin, if_neg hin]
            obtain ⟨i, hi, heq, hbx, hprefix⟩ :=
              rectFirstBoundaryAux_spec sizes p 0 hlen hval
                (isInner_false_boundary sizes p hlen hval hin)
            have hIeq : rectFirstBoundary sizes p = i := by
              unfold rectFirstBoundary
              omega
            rw [hIeq]
            rw [rectOffsetPChecked_eq sizes i hS hmem hpos (le_of_lt hi)
              hfitlen hfit2]
            simp only [Option.some_bind]
            rw [rectFaceBlockChecked_eq sizes i hS hmem hi hfitlen]
            simp only [Option.some_bind]
            have hplen : i < p.length := by omega
            have hfsl : ((sizes.take i).map (fun l => l - 2)
                ++ sizes.drop (i + 1)).length = sizes.length - 1 :=
              fs_length sizes i hi
            have hfcl : ((p.take i).map (fun q => q - 1)
                ++ p.drop (i + 1)).length = p.length - 1 := by
              simp only [List.length_append, List.length_map, List.length_take,
                List.length_drop]
              omega
            have hsum' : ((sizes.take i).map (fun l => l - 2)
                ++ sizes.drop (i + 1)).sum ≤ sizes.sum := fs_sum_le sizes i hi
            have hval' : ∀ k, k < ((sizes.take i).map (fun l => l - 2)
                  ++ sizes.drop (i + 1)).length →
                ((p.take i).map (fun q => q - 1) ++ p.drop (i + 1)).getD k 0
                  < ((sizes.take i).map (fun l => l - 2)
                      ++ sizes.drop (i + 1)).getD k 0 := by
              intro k hk
              rw [hfsl] at hk
              rcases Nat.lt_or_ge k i with hki | hki
              · rw [takeMapDrop_getD_lt _ sizes i k (by omega) hki,
                  takeMapDrop_getD_lt _ p i k (by omega) hki]
                have hpre := hprefix k hki
                have hvk := hval k (by omega)
                omega
              · rw [takeMapDrop_getD_ge _ sizes i k (by omega) hki (by omega),
                  takeMapDrop_getD_ge _ p i k (by omega) hki (by omega)]
                exact hval (k + 1) (by omega)
            rw [ih ((sizes.take i).map (fun l => l - 2) ++ sizes.drop (i + 1))
              ((p.take i).map (fun q => q - 1) ++ p.drop (i + 1))
              (by rw [hfsl]; omega) (by rw [hfsl]; omega)
              (fs_mem_le sizes i hmem) (by omega) hval']
            simp only [Option.some_bind]

lemma onionPointRectChecked_eq {S N : Nat} (hS : 1 ≤ S) (hSN : S ^ N ≤ u32Max) :
    ∀ (fuel : Nat) (sizes : List Nat) (index : Nat),
      sizes.sum + sizes.length < fuel →
      sizes.length ≤ N →
      (∀ e ∈ sizes, e ≤ S) →
      index < sizes.prod →
      onionPointRectChecked fuel sizes index
        = some (onionPointRect fuel sizes index) := by
  intro fuel
  induction fuel with
  | zero =>
      intro sizes index hfuel _ _ _
      omega
  | succ fuel ih =>
      intro sizes index hfuel hlenN hmem hidx
      by_cases h0 : sizes.length = 0
      · simp only [onionPointRectChecked, onionPointRect, if_pos h0]
      · by_cases h1 : sizes.length = 1
        · simp only [onionPointRectChecked, onionPointRect, if_neg h0, if_pos h1]
        · have hlen2 : 2 ≤ sizes.length := by omega
          have hprodpos : 1 ≤ sizes.prod := by omega
          have hpos : ∀ e ∈ sizes, 1 ≤ e := mem_pos_of_prod_pos hprodpos
          have hfitlen : S ^ sizes.length ≤ u32Max :=
            le_trans (Nat.pow_le_pow_right hS hlenN) hSN
          have hfit2 : 2 * S ^ (sizes.length - 1) ≤ u32Max :=
            two_mul_pow_le_u32Max hS (by omega) hSN
          have hmem2 : ∀ e ∈ sizes.map (fun l => l - 2), e ≤ S := by
            intro e he
            obtain ⟨x, hx, rfl⟩ := List.mem_map.mp he
            exact le_trans (by omega) (hmem x hx)
          have htotal : checkedProd sizes = some sizes.prod :=
            checkedProd_eq hS hmem hfitlen
          have hinner : checkedProd (sizes.map (fun l => l - 2))
              = some (sizes.map (fun l => l - 2)).prod :=
            checkedProd_eq hS hmem2 (by rw [List.length_map]; exact hfitlen)
          have hIle : (sizes.map (fun l => l - 2)).prod ≤ sizes.prod :=
            prod_map_sub_two_le sizes
          simp only [onionPointRectChecked, onionPointRect, if_neg h0, if_neg h1]
          rw [htotal]
          simp only [Option.bind_eq_bind, Option.some_bind]
          rw [hinner]
          simp only [Option.some_bind]
          rw [foldl_mul_one, foldl_mul_one]
          by_cases hout : sizes.prod - (sizes.map (fun l => l - 2)).prod ≤ index
          · rw [if_pos hout, if_pos hout]
            have hinnerpos : 1 ≤ (sizes.map (fun l => l - 2)).prod := by omega
            have h3mem : ∀ e ∈ sizes, 3 ≤ e := by
              intro e he
              have h := mem_pos_of_prod_pos hinnerpos (e - 2)
                (List.mem_map_of_mem _ he)
              omega
            have hsum := sum_map_sub_two_of_ge sizes
              (fun e he => by have := h3mem e he; omega)
            have hfuel' : (sizes.map (fun l => l - 2)).sum
                + (sizes.map (fun l => l - 2)).length < fuel := by
              rw [List.length_map]
              omega
            rw [ih (sizes.map (fun l => l - 2))
              (index - (sizes.prod - (sizes.map (fun l => l - 2)).prod)) hfuel'
              (by rw [List.length_map]; omega) hmem2 (by omega)]
            simp only [Option.some_bind]
          · rw [if_neg hout, if_neg hout]
            have hpartsum := rectPartSize_sum sizes hpos
            have hchk := rectFindPartitionCheckedAux_eq sizes sizes.length 0 index
              (fun j2 _ hj2 => rectPartSizeChecked_eq sizes j2 hS hmem (by omega)
                hfitlen hfit2)
            have hmap0 : List.map (fun i => rectPartSize sizes (0 + i))
                  (List.range sizes.length)
                = List.map (rectPartSize sizes) (List.range sizes.length) := by
              apply List.map_congr_left
              intro j _
              rw [Nat.zero_add]
            obtain ⟨i, r, hi, heqsel, hr⟩ :=
              rectFindPartitionAux_spec sizes.length 0 index sizes
                (by rw [hmap0]; omega)
            rw [Nat.zero_add] at heqsel hr
            have hselF : rectFindPartition sizes index = (i, r) := by
              unfold rectFindPartition
              exact heqsel
            rw [hchk, heqsel]
            simp only [Option.some_bind]
            rw [hselF]
            rw [rectFaceBlockChecked_eq sizes i hS hmem hi hfitlen]
            simp only [Option.some_bind]
            have hfsl : ((sizes.take i).map (fun l => l - 2)
                ++ sizes.drop (i + 1)).length = sizes.length - 1 :=
              fs_length sizes i hi
            have hfsprod : ((sizes.take i).map (fun l => l - 2)
                ++ sizes.drop (i + 1)).prod = rectFaceBlock sizes i :=
              (rectFaceBlock_eq_prod sizes i).symm
            have hrps := rectPartSize_eq_factor_mul_faceBlock sizes i
            have hhs2 : ((if 2 ≤ sizes.getD i 0 then
                  if r < rectFaceBlock sizes i then (false, r)
                  else (true, r - rectFaceBlock sizes i)
                else (false, r)) : Bool × Nat).2
                < ((sizes.take i).map (fun l => l - 2)
                    ++ sizes.drop (i + 1)).prod := by
              rw [hfsprod]
              split_ifs with hg hlt
              · exact hlt
              · rw [if_pos hg] at hrps
                omega
              · rw [if_neg hg] at hrps
                omega
            rw [ih ((sizes.take i).map (fun l => l - 2) ++ sizes.drop (i + 1)) _
              (by rw [hfsl]; have := fs_sum_le sizes i hi; omega)
              (by rw [hfsl]; omega) (fs_mem_le sizes i hmem) hhs2]
            simp only [Option.some_bind]

lemma mapM_eq_map_of_some {α β : Type} (f : α → Option β) (g : α → β) :
    ∀ l : List α, (∀ a ∈ l, f a = some (g a)) → l.mapM f = some (l.map g) := by
  intro l
  induction l with
  | nil => intro _; rfl
  | cons x xs ih =>
      intro h
      rw [List.mapM_cons, h x (List.mem_cons_self _ _)]
      simp only [Option.bind_eq_bind, Option.some_bind, List.map_cons]
      rw [ih (fun a ha => h a (List.mem_cons_of_mem _ ha))]
      rfl

lemma partitionSizesChecked_eq (d side : Nat) (hd : 1 ≤ d) (hside : 1 ≤ side)
    (hfit : side ^ d ≤ u32Max) :
    partitionSizesChecked d side = some (partitionSizes d side) := by
  unfold partitionSizesChecked partitionSizes
  apply mapM_eq_map_of_some
  intro j hj
  have hjd : j < d := List.mem_range.mp hj
  have h1 : (side - 2) ^ j ≤ u32Max :=
    pow_le_u32Max_of_le (by omega) (by omega) hside hfit
  have h2 : side ^ (d - 1 - j) ≤ u32Max :=
    pow_le_u32Max_of_le (le_refl side) (by omega) hside hfit
  have h2b : 2 * side ^ (d - 1) ≤ u32Max := two_mul_pow_le_u32Max hside (by omega) hfit
  have hper : (side - 2) ^ j ≤ side ^ (d - 1) :=
    le_trans (Nat.pow_le_pow_left (by omega) j) (Nat.pow_le_pow_right hside (by omega))
  have h3 : 2 * (side - 2) ^ j ≤ u32Max := by omega
  have h4 : 2 * (side - 2) ^ j * side ^ (d - 1 - j) ≤ u32Max := by
    have ha : (side - 2) ^ j ≤ side ^ j := Nat.pow_le_pow_left (by omega) j
    have hb : 2 * (side - 2) ^ j * side ^ (d - 1 - j)
        ≤ 2 * side ^ j * side ^ (d - 1 - j) :=
      Nat.mul_le_mul_right _ (Nat.mul_le_mul_left _ ha)
    have hc : 2 * side ^ j * side ^ (d - 1 - j) = 2 * side ^ (d - 1) := by
      rw [Nat.mul_assoc, ← pow_add]
      congr 2
      omega
    omega
  rw [checkedPow_eq h1]
  simp only [Option.bind_eq_bind, Option.some_bind]
  rw [checkedPow_eq h2]
  simp only [Option.some_bind]
  rw [checkedMul_eq h3]
  simp only [Option.some_bind]
  rw [checkedMul_eq h4]
  rfl

lemma subPartSizeChecked_eq (d side bd : Nat) (hd : 1 ≤ d) (hside : 1 ≤ side)
    (hbd : bd ≤ d - 1) (hfit : side ^ d ≤ u32Max) :
    subPartSizeChecked d side bd
      = some (powU32 (side - 2) bd * powU32 side (d - 1 - bd)) := by
  unfold subPartSizeChecked
  have h1 : (side - 2) ^ bd ≤ u32Max :=
    pow_le_u32Max_of_le (by omega) (by omega) hside hfit
  have h2 : side ^ (d - 1 - bd) ≤ u32Max :=
    pow_le_u32Max_of_le (le_refl side) (by omega) hside hfit
  have h3 : (side - 2) ^ bd * side ^ (d - 1 - bd) ≤ u32Max := by
    have ha : (side - 2) ^ bd ≤ side ^ bd := Nat.pow_le_pow_left (by omega) bd
    have hb : (side - 2) ^ bd * side ^ (d - 1 - bd)
        ≤ side ^ bd * side ^ (d - 1 - bd) := Nat.mul_le_mul_right _ ha
    have hc : side ^ bd * side ^ (d - 1 - bd) = side ^ (d - 1) := by
      rw [← pow_add]
      congr 1
      omega
    have hdle : side ^ (d - 1) ≤ side ^ d := Nat.pow_le_pow_right hside (by omega)
    omega
  rw [checkedPow_eq h1]
  simp only [Option.bind_eq_bind, Option.some_bind]
  rw [checkedPow_eq h2]
  simp only [Option.some_bind]
  rw [checkedMul_eq h3]
  rfl

lemma partitionSizes_sum_eq (N s : Nat) (hs : 2 ≤ s) :
    (partitionSizes N s).sum = s ^ N - (s - 2) ^ N := by
  unfold partitionSizes powU32
  have hsum :
      ((List.range N).map fun j => 2 * (s - 2) ^ j * s ^ (N - 1 - j)).sum
        = 2 * ((List.range N).map fun j => (s - 2) ^ j * s ^ (N - 1 - j)).sum := by
    have hmap : List.map (fun j => 2 * (s - 2) ^ j * s ^ (N - 1 - j)) (List.range N)
        = List.map (fun j => 2 * ((s - 2) ^ j * s ^ (N - 1 - j))) (List.range N) := by
      apply List.map_congr_left
      intro j _
      ring
    rw [hmap, List.sum_map_mul_left]
  have hgeom := geom_sum_range (s - 2) s (by omega) N
  have h2 : s - (s - 2) = 2 := by omega
  rw [h2] at hgeom
  rw [hsum, hgeom]

lemma firstBoundaryAux_spec :
    ∀ (lp : List Nat) (side i0 : Nat), 2 ≤ side →
      (∀ k, k < lp.length → lp.getD k 0 < side) →
      (∃ k, k < lp.length ∧ (lp.getD k 0 = 0 ∨ lp.getD k 0 + 1 = side)) →
      ∃ i, i < lp.length ∧
        firstBoundaryAux side lp i0 = (i0 + i, decide (lp.getD i 0 + 1 = side)) ∧
        (lp.getD i 0 = 0 ∨ lp.getD i 0 + 1 = side) ∧
        (∀ k, k < i → 1 ≤ lp.getD k 0 ∧ lp.getD k 0 + 2 ≤ side) := by
  intro lp
  induction lp with
  | nil =>
      intro side i0 _ _ hex
      obtain ⟨k, hk, _⟩ := hex
      simp at hk
  | cons c rest ih =>
      intro side i0 hside hval hex
      have hc : c < side := by
        have := hval 0 (by simp)
        simpa using this
      by_cases hc0 : c = 0
      · refine ⟨0, by simp, ?_, ?_, by intro k hk; omega⟩
        · simp only [firstBoundaryAux, if_pos hc0, List.getD_cons_zero]
          have hb : decide (c + 1 = side) = false := by
            simp only [decide_eq_false_iff_not]
            omega
          rw [hb]
          simp
        · simp only [List.getD_cons_zero]
          exact Or.inl hc0
      · by_cases hchigh : c + 1 = side
        · refine ⟨0, by simp, ?_, ?_, by intro k hk; omega⟩
          · simp only [firstBoundaryAux, if_neg hc0, if_pos hchigh,
              List.getD_cons_zero]
            have hb : decide (c + 1 = side) = true := by
              simp only [decide_eq_true_eq]
              exact hchigh
            rw [hb]
            simp
          · simp only [List.getD_cons_zero]
            exact Or.inr hchigh
        · have hex2 : ∃ k, k < rest.length ∧
              (rest.getD k 0 = 0 ∨ rest.getD k 0 + 1 = side) := by
            obtain ⟨k, hk, hb⟩ := hex
            cases k with
            | zero =>
                simp only [List.getD_cons_zero] at hb
                omega
            | succ k =>
                simp only [List.getD_cons_succ] at hb
                exact ⟨k, by simpa using hk, hb⟩
          have hval2 : ∀ k, k < rest.length → rest.getD k 0 < side := by
            intro k hk
            have := hval (k + 1) (by simpa using hk)
            simpa using this
          obtain ⟨i, hi, heq, hb, hpre⟩ := ih side (i0 + 1) hside hval2 hex2
          refine ⟨i + 1, by simpa using hi, ?_, by simpa using hb, ?_⟩
          · simp only [firstBoundaryAux, if_neg hc0, if_neg hchigh,
              List.getD_cons_succ]
            rw [heq]
            congr 1
            omega
          · intro k hk
            cases k with
            | zero =>
                simp only [List.getD_cons_zero]
                omega
            | succ k =>
                simp only [List.getD_cons_succ]
                exact hpre k (by omega)

lemma faceSizes_length (d side bd : Nat) (hbd : bd ≤ d - 1) :
    (faceSizes d side bd).length = d - 1 := by
  unfold faceSizes
  simp only [List.length_append, List.length_replicate]
  omega

lemma faceSizes_prod (d side bd : Nat) :
    (faceSizes d side bd).prod = (side - 2) ^ bd * side ^ (d - 1 - bd) := by
  unfold faceSizes
  rw [List.prod_append, List.prod_replicate, List.prod_replicate]

lemma faceSizes_mem_le (d side bd : Nat) :
    ∀ e ∈ faceSizes d side bd, e ≤ side := by
  intro e he
  unfold faceSizes at he
  rcases List.mem_append.mp he with h | h
  · have := List.eq_of_mem_replicate h
    omega
  · have := List.eq_of_mem_replicate h
    omega

lemma faceSizes_getD_lt (d side bd k : Nat) (hk : k < bd) :
    (faceSizes d side bd).getD k 0 = side - 2 := by
  unfold faceSizes
  rw [List.getD_append _ _ _ _ (by simp only [List.length_replicate]; exact hk)]
  rw [List.getD_eq_getElem _ 0 (by simp only [List.length_replicate]; exact hk)]
  exact List.getElem_replicate _ _

lemma faceSizes_getD_ge (d side bd k : Nat) (hk1 : bd ≤ k) (hk2 : k < d - 1) :
    (faceSizes d side bd).getD k 0 = side := by
  unfold faceSizes
  rw [List.getD_append_right _ _ _ _ (by simp only [List.length_replicate]; exact hk1)]
  simp only [List.length_replicate]
  rw [List.getD_eq_getElem _ 0 (by simp only [List.length_replicate]; omega)]
  exact List.getElem_replicate _ _

lemma onionShellIndexChecked_eq (d side : Nat) (localP : List Nat)
    (hd : 1 ≤ d) (hfit : side ^ d ≤ u32Max) (hlen : localP.length = d)
    (hval : ∀ k, k < d → localP.getD k 0 < side)
    (hbound : ∃ k, k < d ∧ (localP.getD k 0 = 0 ∨ localP.getD k 0 + 1 = side)) :
    onionShellIndexChecked d side localP
      = some (onionShellIndex d side localP) := by
  simp only [onionShellIndexChecked, onionShellIndex]
  by_cases hs1 : side = 1
  · rw [if_pos hs1, if_pos hs1]
  · rw [if_neg hs1, if_neg hs1]
    by_cases hs2 : side = 2
    · rw [if_pos hs2, if_pos hs2]
    · rw [if_neg hs2, if_neg hs2]
      by_cases hd1 : d = 1
      · rw [if_pos hd1, if_pos hd1]
      · rw [if_neg hd1, if_neg hd1]
        by_cases hd2 : d = 2
        · rw [if_pos hd2, if_pos hd2]
        · rw [if_neg hd2, if_neg hd2]
          have hside1 : 1 ≤ side := by
            have := hval 0 (by omega)
            omega
          have hside3 : 3 ≤ side := by omega
          have hd3 : 3 ≤ d := by omega
          have hvalL : ∀ k, k < localP.length → localP.getD k 0 < side := by
            rw [hlen]
            exact hval
          have hboundL : ∃ k, k < localP.length ∧
              (localP.getD k 0 = 0 ∨ localP.getD k 0 + 1 = side) := by
            rw [hlen]
            exact hbound
          obtain ⟨i, hi, heqb, hbx, hpre⟩ :=
            firstBoundaryAux_spec localP side 0 (by omega) hvalL hboundL
          rw [hlen] at hi
          have hfbeq : firstBoundary localP side
              = (i, decide (localP.getD i 0 + 1 = side)) := by
            unfold firstBoundary
            rw [heqb]
            simp only [Nat.zero_add]
          have hfb1 : (firstBoundary localP side).1 = i := by rw [hfbeq]
          have hfb2 : (firstBoundary localP side).2
              = decide (localP.getD i 0 + 1 = side) := by rw [hfbeq]
          rw [hfb1, hfb2]
          rw [partitionSizesChecked_eq d side hd hside1 hfit]
          simp only [Option.bind_eq_bind, Option.some_bind]
          rw [subPartSizeChecked_eq d side i hd hside1 (by omega) hfit]
          simp only [Option.some_bind]
          have hfsl := faceSizes_length d side i (by omega)
          have hfcl : (faceCoordsFromPoint localP i).length = d - 1 := by
            unfold faceCoordsFromPoint
            simp only [List.length_append, List.length_map, List.length_take,
              List.length_drop]
            omega
          have hrect := onionIndexRectChecked_eq (S := side) (N := d) hside1 hfit
            (rectFuel (faceSizes d side i)) (faceSizes d side i)
            (faceCoordsFromPoint localP i)
            (by unfold rectFuel; omega)
            (by rw [hfsl]; omega)
            (faceSizes_mem_le d side i)
            (by rw [hfsl, hfcl])
            (by
              intro k hk
              rw [hfsl] at hk
              unfold faceCoordsFromPoint
              rcases Nat.lt_or_ge k i with hki | hki
              · rw [takeMapDrop_getD_lt _ localP i k (by omega) hki,
                  faceSizes_getD_lt d side i k hki]
                have := hpre k hki
                omega
              · rw [takeMapDrop_getD_ge _ localP i k (by omega) hki (by omega),
                  faceSizes_getD_ge d side i k hki hk]
                exact hval (k + 1) (by omega))
          rw [hrect]
          simp only [Option.some_bind]

lemma onionShellPointChecked_eq (d side index : Nat)
    (hd : 1 ≤ d) (hfit : side ^ d ≤ u32Max) (hidx : index < shellSize d side) :
    onionShellPointChecked d side index = some (onionShellPoint d side index) := by
  simp only [onionShellPointChecked, onionShellPoint]
  by_cases hs1 : side = 1
  · rw [if_pos hs1, if_pos hs1]
  · rw [if_neg hs1, if_neg hs1]
    by_cases hs2 : side = 2
    · rw [if_pos hs2, if_pos hs2]
    · rw [if_neg hs2, if_neg hs2]
      by_cases hd1 : d = 1
      · rw [if_pos hd1, if_pos hd1]
      · rw [if_neg hd1, if_neg hd1]
        by_cases hd2 : d = 2
        · rw [if_pos hd2, if_pos hd2]
        · rw [if_neg hd2, if_neg hd2]
          have hside0 : side ≠ 0 := by
            intro h
            rw [h] at hidx
            simp [shellSize] at hidx
          have hside3 : 3 ≤ side := by omega
          have hd3 : 3 ≤ d := by omega
          rw [partitionSizesChecked_eq d side hd (by omega) hfit]
          simp only [Option.bind_eq_bind, Option.some_bind]
          have hplen : (partitionSizes d side).length = d := by
            unfold partitionSizes
            simp
          have hsum := partitionSizes_sum_eq d side (by omega)
          have hshell : shellSize d side = side ^ d - (side - 2) ^ d := by
            unfold shellSize powU32
            rw [if_neg hside0]
          have hidx2 : index < (partitionSizes d side).sum := by omega
          obtain ⟨i, hi, heqs, hle, hlt⟩ :=
            selectPartitionAux_spec (partitionSizes d side) 0 index hidx2
          rw [hplen] at hi
          have hseleq : selectPartition (partitionSizes d side) index
              = (i, index - ((partitionSizes d side).take i).sum) := by
            unfold selectPartition
            rw [heqs]
            simp only [Nat.zero_add]
          have hsel1 : (selectPartition (partitionSizes d side) index).1 = i := by
            rw [hseleq]
          have hsel2 : (selectPartition (partitionSizes d side) index).2
              = index - ((partitionSizes d side).take i).sum := by
            rw [hseleq]
          rw [hsel1, hsel2]
          rw [subPartSizeChecked_eq d side i hd (by omega) (by omega) hfit]
          simp only [Option.some_bind]
          have hgetd : (partitionSizes d side).getD i 0
              = 2 * ((side - 2) ^ i * side ^ (d - 1 - i)) := by
            unfold partitionSizes powU32
            rw [List.getD_eq_getElem _ 0
              (by simp only [List.length_map, List.length_range]; omega)]
            rw [List.getElem_map, List.getElem_range]
            ring
          rw [hgetd] at hlt
          have hfsl := faceSizes_length d side i (by omega)
          have hfsprod : (faceSizes d side i).prod
              = (side - 2) ^ i * side ^ (d - 1 - i) := faceSizes_prod d side i
          have hhs2 : ((if index - ((partitionSizes d side).take i).sum
                  < powU32 (side - 2) i * powU32 side (d - 1 - i) then
                (false, index - ((partitionSizes d side).take i).sum)
              else (true, index - ((partitionSizes d side).take i).sum
                  - powU32 (side - 2) i * powU32 side (d - 1 - i))) : Bool × Nat).2
              < (faceSizes d side i).prod := by
            rw [hfsprod]
            unfold powU32
            split_ifs with hc
            · exact hc
            · unfold powU32 at hc
              omega
          have hrect := onionPointRectChecked_eq (S := side) (N := d)
            (by omega) hfit (rectFuel (faceSizes d side i)) (faceSizes d side i) _
            (by unfold rectFuel; omega)
            (by rw [hfsl]; omega)
            (faceSizes_mem_le d side i)
            hhs2
          rw [hrect]
          simp only [Option.some_bind]

lemma peelLevelsChecked_eq (d : Nat) :
    ∀ (k s off : Nat), s ^ d ≤ u32Max →
      peelLevelsChecked d k s off = some (peelLevels d k s off) := by
  intro k
  induction k with
  | zero => intro s off _; rfl
  | succ k ih =>
      intro s off hfit
      simp only [peelLevelsChecked, peelLevels]
      rw [shellSizeChecked_eq hfit]
      simp only [Option.bind_eq_bind, Option.some_bind]
      exact ih (s - 2) _ (le_trans (Nat.pow_le_pow_left (by omega) d) hfit)

lemma peelLevels_fst (d : Nat) :
    ∀ (k s off : Nat), (peelLevels d k s off).1 = s - 2 * k := by
  intro k
  induction k with
  | zero =>
      intro s off
      simp [peelLevels]
  | succ k ih =>
      intro s off
      simp only [peelLevels]
      rw [ih]
      omega

lemma onionIndexGenericChecked_eq (d side : Nat) (p : List Nat)
    (hd : 1 ≤ d) (hfit : side ^ d ≤ u32Max) (hlen : p.length = d)
    (hval : ∀ k, k < d → p.getD k 0 < side) :
    onionIndexGenericChecked d side p = some (onionIndexGeneric d side p) := by
  have hpne : p ≠ [] := by
    intro h
    rw [h] at hlen
    simp at hlen
    omega
  have hmape : (p.map fun c => min c (side - 1 - c)) ≠ [] := by
    simp [hpne]
  obtain ⟨m, hm⟩ : ∃ m, (p.map fun c => min c (side - 1 - c)).min? = some m := by
    cases hmm : (p.map fun c => min c (side - 1 - c)).min? with
    | none => exact absurd (List.min?_eq_none_iff.mp hmm) hmape
    | some m => exact ⟨m, rfl⟩
  have hmmem : m ∈ p.map fun c => min c (side - 1 - c) :=
    List.min?_mem (fun a b => min_choice a b) hm
  have hmle : ∀ b ∈ p.map fun c => min c (side - 1 - c), m ≤ b :=
    fun b hb => (List.le_min?_iff (fun _ _ _ => Nat.le_min) hm).mp (le_refl m) b hb
  have hfacts : ∀ k, k < d → m ≤ p.getD k 0 ∧ m + p.getD k 0 + 1 ≤ side := by
    intro k hk
    have hkp : k < p.length := by omega
    have hb : min (p.getD k 0) (side - 1 - p.getD k 0)
        ∈ p.map fun c => min c (side - 1 - c) := by
      rw [List.getD_eq_getElem p 0 hkp]
      exact List.mem_map_of_mem _ (List.mem_iff_getElem.mpr ⟨k, hkp, rfl⟩)
    have hle := hmle _ hb
    have hvk := hval k hk
    have h1 : m ≤ p.getD k 0 := le_trans hle (Nat.min_le_left _ _)
    have h2 : m ≤ side - 1 - p.getD k 0 := le_trans hle (Nat.min_le_right _ _)
    omega
  obtain ⟨c0, hc0mem, hc0eq⟩ := List.mem_map.mp hmmem
  have hc0eq' : min c0 (side - 1 - c0) = m := hc0eq
  obtain ⟨k0, hk0, hk0eq⟩ := List.mem_iff_getElem.mp hc0mem
  have hk0d : k0 < d := by omega
  have hb0 : (p.map fun c => c - m).getD k0 0 = 0 ∨
      (p.map fun c => c - m).getD k0 0 + 1 = side - 2 * m := by
    have hgd : (p.map fun c => c - m).getD k0 0 = p.getD k0 0 - m := by
      rw [List.getD_eq_getElem _ 0 (by simpa using hk0), List.getElem_map,
        ← List.getD_eq_getElem p 0 hk0]
    have hc0g : p.getD k0 0 = c0 := by
      rw [List.getD_eq_getElem p 0 hk0, hk0eq]
    have hvk := hval k0 hk0d
    rw [hgd, hc0g]
    rw [hc0g] at hvk
    rcases Nat.le_total c0 (side - 1 - c0) with hcle | hcge
    · left
      have hmeq : min c0 (side - 1 - c0) = c0 := Nat.min_eq_left hcle
      omega
    · right
      have hmeq : min c0 (side - 1 - c0) = side - 1 - c0 := Nat.min_eq_right hcge
      omega
  have hval' : ∀ k, k < d → (p.map fun c => c - m).getD k 0 < side - 2 * m := by
    intro k hk
    have hkp : k < p.length := by omega
    have hgd : (p.map fun c => c - m).getD k 0 = p.getD k 0 - m := by
      rw [List.getD_eq_getElem _ 0 (by simpa using hkp), List.getElem_map,
        ← List.getD_eq_getElem p 0 hkp]
    rw [hgd]
    have := hfacts k hk
    omega
  have hLm : ((p.map fun c => min c (side - 1 - c)).min?).getD 0 = m := by
    rw [hm]
    rfl
  have hps1 : (peelLevels d m side 0).1 = side - 2 * m := peelLevels_fst d m side 0
  have hfit' : (side - 2 * m) ^ d ≤ u32Max :=
    le_trans (Nat.pow_le_pow_left (by omega) d) hfit
  have hshell := onionShellIndexChecked_eq d (side - 2 * m) (p.map fun c => c - m)
    hd hfit' (by simp [hlen]) hval' ⟨k0, hk0d, hb0⟩
  simp only [onionIndexGenericChecked, onionIndexGeneric, shellForPoint]
  rw [hLm]
  rw [peelLevelsChecked_eq d m side 0 hfit]
  simp only [Option.bind_eq_bind, Option.some_bind]
  rw [hps1, hshell]
  simp only [Option.some_bind]

lemma shellForIndexAuxChecked_spec (d : Nat) (hd : 1 ≤ d) :
    ∀ (fuel s lvl off idx : Nat), idx < s ^ d → s < fuel → s ^ d ≤ u32Max →
      shellForIndexAuxChecked d fuel s lvl off idx
          = some (shellForIndexAux d fuel s lvl off idx) ∧
        (shellForIndexAux d fuel s lvl off idx).indexWithin
          < shellSize d (shellForIndexAux d fuel s lvl off idx).side ∧
        (shellForIndexAux d fuel s lvl off idx).side ≤ s := by
  intro fuel
  induction fuel with
  | zero =>
      intro s lvl off idx _ hs _
      omega
  | succ fuel ih =>
      intro s lvl off idx hidx hsf hfit
      simp only [shellForIndexAuxChecked, shellForIndexAux]
      rw [shellSizeChecked_eq hfit]
      simp only [Option.bind_eq_bind, Option.some_bind]
      by_cases hlt : idx < shellSize d s
      · rw [if_pos hlt, if_pos hlt]
        exact ⟨rfl, hlt, le_refl s⟩
      · rw [if_neg hlt, if_neg hlt]
        have hs3 : 3 ≤ s := by
          rcases Nat.lt_or_ge s 3 with h | h
          · exfalso
            interval_cases s
            · rw [zero_pow (by omega : d ≠ 0)] at hidx
              omega
            · have hss : shellSize d 1 = 1 := by
                unfold shellSize powU32
                rw [if_neg (by omega)]
                rw [one_pow, show (1 : Nat) - 2 = 0 from rfl,
                  zero_pow (by omega : d ≠ 0)]
                omega
              rw [one_pow] at hidx
              omega
            · have hss : shellSize d 2 = 2 ^ d := by
                unfold shellSize powU32
                rw [if_neg (by omega)]
                rw [show (2 : Nat) - 2 = 0 from rfl, zero_pow (by omega : d ≠ 0)]
                omega
              omega
          · exact h
        have hss : shellSize d s = s ^ d - (s - 2) ^ d := by
          unfold shellSize powU32
          rw [if_neg (by omega)]
        have hle2 : (s - 2) ^ d ≤ s ^ d := Nat.pow_le_pow_left (by omega) d
        have hres := ih (s - 2) (lvl + 1) (off + shellSize d s) (idx - shellSize d s)
          (by omega) (by omega) (le_trans hle2 hfit)
        exact ⟨hres.1, hres.2.1, by omega⟩

lemma onionPointGenericChecked_eq (d side index : Nat)
    (hd : 1 ≤ d) (hfit : side ^ d ≤ u32Max) (hidx : index < side ^ d) :
    onionPointGenericChecked d side index
      = some (onionPointGeneric d side index) := by
  obtain ⟨hc, hw, hsle⟩ := shellForIndexAuxChecked_spec d hd (side + 1) side 0 0
    index hidx (by omega) hfit
  simp only [onionPointGenericChecked, onionPointGeneric, shellForIndexChecked,
    shellForIndex]
  rw [hc]
  simp only [Option.bind_eq_bind, Option.some_bind]
  rw [onionShellPointChecked_eq d _ _ hd
    (le_trans (Nat.pow_le_pow_left hsle d) hfit) hw]
  simp only [Option.some_bind]

lemma onionIndexNd2Checked_eq (side : Nat) (p : List Nat)
    (hfit : side ^ 2 ≤ u32Max) (hlen : p.length = 2)
    (hval : ∀ k, k < 2 → p.getD k 0 < side) :
    onionIndexNd2Checked side p = some (onionIndexNd2 side p) := by
  unfold onionIndexNd2Checked onionIndexNd2
  by_cases h0 : side = 0
  · rw [if_pos h0, if_pos h0]
  · rw [if_neg h0, if_neg h0]
    exact onionIndexGenericChecked_eq 2 side p (by omega) hfit hlen hval

lemma onionPointNd2Checked_eq (side index : Nat)
    (hfit : side ^ 2 ≤ u32Max) (hidx : index < side ^ 2) :
    onionPointNd2Checked side index = some (onionPointNd2 side index) := by
  unfold onionPointNd2Checked onionPointNd2
  by_cases h0 : side = 0
  · rw [if_pos h0, if_pos h0]
  · rw [if_neg h0, if_neg h0]
    exact onionPointGenericChecked_eq 2 side index (by omega) hfit hidx

set_option maxHeartbeats 1600000 in
lemma onionIndex3dChecked_eq (side : Nat) (p : List Nat)
    (hside : 3 ≤ side) (hfit : side ^ 3 ≤ u32Max) (hlen : p.length = 3)
    (hval : ∀ k, k < 3 → p.getD k 0 < side) :
    onionIndex3dChecked side p = some (onionIndex3d side p) := by
  have hpne : p ≠ [] := by
    intro h
    rw [h] at hlen
    simp at hlen
  have hmape : (p.map fun c => min c (side - 1 - c)) ≠ [] := by
    simp [hpne]
  obtain ⟨m, hm⟩ : ∃ m, (p.map fun c => min c (side - 1 - c)).min? = some m := by
    cases hmm : (p.map fun c => min c (side - 1 - c)).min? with
    | none => exact absurd (List.min?_eq_none_iff.mp hmm) hmape
    | some m => exact ⟨m, rfl⟩
  have hmle : ∀ b ∈ p.map fun c => min c (side - 1 - c), m ≤ b :=
    fun b hb => (List.le_min?_iff (fun _ _ _ => Nat.le_min) hm).mp (le_refl m) b hb
  have hfacts : ∀ k, k < 3 → m ≤ p.getD k 0 ∧ m + p.getD k 0 + 1 ≤ side := by
    intro k hk
    have hkp : k < p.length := by omega
    have hb : min (p.getD k 0) (side - 1 - p.getD k 0)
        ∈ p.map fun c => min c (side - 1 - c) := by
      rw [List.getD_eq_getElem p 0 hkp]
      exact List.mem_map_of_mem _ (List.mem_iff_getElem.mpr ⟨k, hkp, rfl⟩)
    have hle := hmle _ hb
    have hvk := hval k hk
    have h1 : m ≤ p.getD k 0 := le_trans hle (Nat.min_le_left _ _)
    have h2 : m ≤ side - 1 - p.getD k 0 := le_trans hle (Nat.min_le_right _ _)
    omega
  have hLm : ((p.map fun c => min c (side - 1 - c)).min?).getD 0 = m := by
    rw [hm]
    rfl
  have hf0 := hfacts 0 (by omega)
  have hf1 := hfacts 1 (by omega)
  have hf2 := hfacts 2 (by omega)
  simp only [onionIndex3dChecked, onionIndex3d, cubeVolume, powU32]
  rw [hLm]
  by_cases hin1 : side - m * 2 ≤ 1
  · rw [if_pos hin1, if_pos hin1]
    rw [checkedPow_eq hfit]
    simp only [Option.bind_eq_bind, Option.some_bind]
  · rw [if_neg hin1, if_neg hin1]
    have hinner2 : 2 ≤ side - m * 2 := by omega
    have hfitI3 : (side - m * 2) ^ 3 ≤ u32Max :=
      le_trans (Nat.pow_le_pow_left (by omega) 3) hfit
    have hsq : side ^ 2 ≤ side ^ 3 := Nat.pow_le_pow_right (by omega) (by omega)
    have hfitI2 : (side - m * 2) ^ 2 ≤ u32Max := by
      have h1 : (side - m * 2) ^ 2 ≤ side ^ 2 := Nat.pow_le_pow_left (by omega) 2
      omega
    have hfitJ2 : (side - m * 2 - 2) ^ 2 ≤ u32Max := by
      have h1 : (side - m * 2 - 2) ^ 2 ≤ side ^ 2 := Nat.pow_le_pow_left (by omega) 2
      omega
    rw [checkedPow_eq hfit]
    simp only [Option.bind_eq_bind, Option.some_bind]
    rw [checkedPow_eq hfitI3]
    simp only [Option.some_bind]
    rw [checkedPow_eq hfitI2]
    simp only [Option.some_bind]
    have hb0v : p.getD 0 0 - m < side - m * 2 := by omega
    have hb1v : p.getD 1 0 - m < side - m * 2 := by omega
    have hb2v : p.getD 2 0 - m < side - m * 2 := by omega
    have hbc : ∀ k, k < 2 →
        [p.getD 1 0 - m, p.getD 2 0 - m].getD k 0 < side - m * 2 := by
      intro k hk
      interval_cases k
      · exact hb1v
      · exact hb2v
    by_cases ha0 : p.getD 0 0 - m = 0
    · rw [if_pos ha0, if_pos ha0]
      rw [onionIndexNd2Checked_eq (side - m * 2) [p.getD 1 0 - m, p.getD 2 0 - m]
        hfitI2 rfl hbc]
      simp only [Option.some_bind]
    · rw [if_neg ha0, if_neg ha0]
      by_cases ha1 : p.getD 0 0 - m = side - m * 2 - 1
      · rw [if_pos ha1, if_pos ha1]
        rw [onionIndexNd2Checked_eq (side - m * 2) [p.getD 1 0 - m, p.getD 2 0 - m]
          hfitI2 rfl hbc]
        simp only [Option.some_bind]
      · rw [if_neg ha1, if_neg ha1]
        by_cases him2 : side - m * 2 - 2 = 0
        · rw [if_pos him2, if_pos him2]
        · rw [if_neg him2, if_neg him2]
          have hAv : p.getD 0 0 - m - 1 < side - m * 2 - 2 := by omega
          by_cases hbc00 : p.getD 1 0 - m = 0 ∧ p.getD 2 0 - m = 0
          · rw [if_pos hbc00, if_pos hbc00]
          · rw [if_neg hbc00, if_neg hbc00]
            by_cases hb0c : p.getD 1 0 - m = 0 ∧ 0 < p.getD 2 0 - m ∧
                p.getD 2 0 - m < side - m * 2 - 1
            · rw [if_pos hb0c, if_pos hb0c]
              have hvac : ∀ k, k < 2 →
                  [p.getD 0 0 - m - 1, p.getD 2 0 - m - 1].getD k 0
                    < side - m * 2 - 2 := by
                intro k hk
                interval_cases k
                · exact hAv
                · show p.getD 2 0 - m - 1 < side - m * 2 - 2
                  omega
              rw [onionIndexNd2Checked_eq (side - m * 2 - 2)
                [p.getD 0 0 - m - 1, p.getD 2 0 - m - 1] hfitJ2 rfl hvac]
              simp only [Option.some_bind]
            · rw [if_neg hb0c, if_neg hb0c]
              rw [checkedPow_eq hfitJ2]
              simp only [Option.some_bind]
              by_cases hb0ch : p.getD 1 0 - m = 0 ∧
                  p.getD 2 0 - m = side - m * 2 - 1
              · rw [if_pos hb0ch, if_pos hb0ch]
              · rw [if_neg hb0ch, if_neg hb0ch]
                by_cases hbh0 : p.getD 1 0 - m = side - m * 2 - 1 ∧
                    p.getD 2 0 - m = 0
                · rw [if_pos hbh0, if_pos hbh0]
                · rw [if_neg hbh0, if_neg hbh0]
                  by_cases hbhc : p.getD 1 0 - m = side - m * 2 - 1 ∧
                      0 < p.getD 2 0 - m ∧ p.getD 2 0 - m < side - m * 2 - 1
                  · rw [if_pos hbhc, if_pos hbhc]
                    have hvac : ∀ k, k < 2 →
                        [p.getD 0 0 - m - 1, p.getD 2 0 - m - 1].getD k 0
                          < side - m * 2 - 2 := by
                      intro k hk
                      interval_cases k
                      · exact hAv
                      · show p.getD 2 0 - m - 1 < side - m * 2 - 2
                        omega
                    rw [onionIndexNd2Checked_eq (side - m * 2 - 2)
                      [p.getD 0 0 - m - 1, p.getD 2 0 - m - 1] hfitJ2 rfl hvac]
                    simp only [Option.some_bind]
                  · rw [if_neg hbhc, if_neg hbhc]
                    by_cases hbhh : p.getD 1 0 - m = side - m * 2 - 1 ∧
                        p.getD 2 0 - m = side - m * 2 - 1
                    · rw [if_pos hbhh, if_pos hbhh]
                    · rw [if_neg hbhh, if_neg hbhh]
                      have hvab : ∀ k, k < 2 →
                          [p.getD 0 0 - m - 1, p.getD 1 0 - m - 1].getD k 0
                            < side - m * 2 - 2 := by
                        intro k hk
                        interval_cases k
                        · exact hAv
                        · show p.getD 1 0 - m - 1 < side - m * 2 - 2
                          omega
                      by_cases hcz : p.getD 2 0 - m = 0
                      · rw [if_pos hcz, if_pos hcz]
                        rw [onionIndexNd2Checked_eq (side - m * 2 - 2)
                          [p.getD 0 0 - m - 1, p.getD 1 0 - m - 1] hfitJ2
                          rfl hvab]
                        simp only [Option.some_bind]
                      · rw [if_neg hcz, if_neg hcz]
                        rw [onionIndexNd2Checked_eq (side - m * 2 - 2)
                          [p.getD 0 0 - m - 1, p.getD 1 0 - m - 1] hfitJ2
                          rfl hvab]
                        simp only [Option.some_bind]

lemma shellLoop3dChecked_spec :
    ∀ (fuel cl rem lay : Nat), rem < cl ^ 3 → cl < fuel → cl ^ 3 ≤ u32Max →
      shellLoop3dChecked fuel cl rem lay = some (shellLoop3d fuel cl rem lay) ∧
      (shellLoop3d fuel cl rem lay).1
        < (shellLoop3d fuel cl rem lay).2.2 ^ 3
          - ((shellLoop3d fuel cl rem lay).2.2 - 2) ^ 3 ∧
      (shellLoop3d fuel cl rem lay).2.2 ≤ cl := by
  intro fuel
  induction fuel with
  | zero =>
      intro cl rem lay _ h _
      omega
  | succ fuel ih =>
      intro cl rem lay hrem hclf hfit
      simp only [shellLoop3dChecked, shellLoop3d, cubeVolume, powU32]
      rw [checkedPow_eq hfit]
      simp only [Option.bind_eq_bind, Option.some_bind]
      rw [checkedPow_eq (le_trans (Nat.pow_le_pow_left (by omega) 3) hfit)]
      simp only [Option.some_bind]
      by_cases hlt : rem < cl ^ 3 - (cl - 2) ^ 3
      · rw [if_pos hlt, if_pos hlt]
        exact ⟨rfl, hlt, le_refl cl⟩
      · rw [if_neg hlt, if_neg hlt]
        have hcl3 : 3 ≤ cl := by
          rcases Nat.lt_or_ge cl 3 with h | h
          · exfalso
            interval_cases cl
            · norm_num at hrem
            · norm_num at hrem hlt
              omega
            · norm_num at hrem hlt
              omega
          · exact h
        have hsub : (cl - 2) ^ 3 ≤ cl ^ 3 := Nat.pow_le_pow_left (by omega) 3
        have hres := ih (cl - 2) (rem - (cl ^ 3 - (cl - 2) ^ 3)) (lay + 1)
          (by omega) (by omega) (le_trans hsub hfit)
        exact ⟨hres.1, hres.2.1, by omega⟩

set_option maxHeartbeats 1600000 in
lemma onionPoint3dChecked_eq (side index : Nat)
    (hside : 3 ≤ side) (hfit : side ^ 3 ≤ u32Max) (hidx : index < side ^ 3) :
    onionPoint3dChecked side index = some (onionPoint3d side index) := by
  obtain ⟨hc, hw, hle⟩ := shellLoop3dChecked_spec (side + 1) side index 0 hidx
    (by omega) hfit
  simp only [onionPoint3dChecked, onionPoint3d, cubeVolume, powU32]
  rw [hc]
  simp only [Option.bind_eq_bind, Option.some_bind]
  generalize hres : shellLoop3d (side + 1) side index 0 = res
  rw [hres] at hw hle
  obtain ⟨r0, lay, cl⟩ := res
  dsimp only at hw hle ⊢
  by_cases hcl1 : cl ≤ 1
  · rw [if_pos hcl1, if_pos hcl1]
  · rw [if_neg hcl1, if_neg hcl1]
    have hcl2 : 2 ≤ cl := by omega
    have hsq : side ^ 2 ≤ side ^ 3 := Nat.pow_le_pow_right (by omega) (by omega)
    have hfitC2 : cl ^ 2 ≤ u32Max := by
      have h1 : cl ^ 2 ≤ side ^ 2 := Nat.pow_le_pow_left hle 2
      omega
    have hfitD2 : (cl - 2) ^ 2 ≤ u32Max := by
      have h1 : (cl - 2) ^ 2 ≤ side ^ 2 := Nat.pow_le_pow_left (by omega) 2
      omega
    rw [checkedPow_eq hfitC2]
    simp only [Option.some_bind]
    by_cases h1 : r0 < cl ^ 2
    · rw [if_pos h1, if_pos h1]
      rw [onionPointNd2Checked_eq cl r0 hfitC2 h1]
      simp only [Option.some_bind]
    · rw [if_neg h1, if_neg h1]
      by_cases h2 : r0 - cl ^ 2 < cl ^ 2
      · rw [if_pos h2, if_pos h2]
        rw [onionPointNd2Checked_eq cl (r0 - cl ^ 2) hfitC2 h2]
        simp only [Option.some_bind]
      · rw [if_neg h2, if_neg h2]
        by_cases h3 : cl - 2 = 0
        · rw [if_pos h3, if_pos h3]
        · rw [if_neg h3, if_neg h3]
          have hident : cl ^ 3 = (cl - 2) ^ 3 + 2 * cl ^ 2 + 4 * (cl - 2)
              + 4 * (cl - 2) ^ 2 := by
            obtain ⟨q, rfl⟩ : ∃ q, cl = q + 2 := ⟨cl - 2, by omega⟩
            simp only [Nat.add_sub_cancel]
            ring
          by_cases h4 : r0 - cl ^ 2 - cl ^ 2 < cl - 2
          · rw [if_pos h4, if_pos h4]
          · rw [if_neg h4, if_neg h4]
            rw [checkedPow_eq hfitD2]
            simp only [Option.some_bind]
            by_cases h5 : r0 - cl ^ 2 - cl ^ 2 - (cl - 2) < (cl - 2) ^ 2
            · rw [if_pos h5, if_pos h5]
              rw [onionPointNd2Checked_eq (cl - 2)
                (r0 - cl ^ 2 - cl ^ 2 - (cl - 2)) hfitD2 h5]
              simp only [Option.some_bind]
            · rw [if_neg h5, if_neg h5]
              by_cases h6 : r0 - cl ^ 2 - cl ^ 2 - (cl - 2) - (cl - 2) ^ 2
                  < cl - 2
              · rw [if_pos h6, if_pos h6]
              · rw [if_neg h6, if_neg h6]
                by_cases h7 : r0 - cl ^ 2 - cl ^ 2 - (cl - 2) - (cl - 2) ^ 2
                    - (cl - 2) < cl - 2
                · rw [if_pos h7, if_pos h7]
                · rw [if_neg h7, if_neg h7]
                  by_cases h8 : r0 - cl ^ 2 - cl ^ 2 - (cl - 2) - (cl - 2) ^ 2
                      - (cl - 2) - (cl - 2) < (cl - 2) ^ 2
                  · rw [if_pos h8, if_pos h8]
                    rw [onionPointNd2Checked_eq (cl - 2)
                      (r0 - cl ^ 2 - cl ^ 2 - (cl - 2) - (cl - 2) ^ 2
                        - (cl - 2) - (cl - 2)) hfitD2 h8]
                    simp only [Option.some_bind]
                  · rw [if_neg h8, if_neg h8]
                    by_cases h9 : r0 - cl ^ 2 - cl ^ 2 - (cl - 2) - (cl - 2) ^ 2
                        - (cl - 2) - (cl - 2) - (cl - 2) ^ 2 < cl - 2
                    · rw [if_pos h9, if_pos h9]
                    · rw [if_neg h9, if_neg h9]
                      by_cases h10 : r0 - cl ^ 2 - cl ^ 2 - (cl - 2)
                          - (cl - 2) ^ 2 - (cl - 2) - (cl - 2) - (cl - 2) ^ 2
                          - (cl - 2) < (cl - 2) ^ 2
                      · rw [if_pos h10, if_pos h10]
                        rw [onionPointNd2Checked_eq (cl - 2)
                          (r0 - cl ^ 2 - cl ^ 2 - (cl - 2) - (cl - 2) ^ 2
                            - (cl - 2) - (cl - 2) - (cl - 2) ^ 2 - (cl - 2))
                          hfitD2 h10]
                        simp only [Option.some_bind]
                      · rw [if_neg h10, if_neg h10]
                        have hbound : r0 - cl ^ 2 - cl ^ 2 - (cl - 2)
                            - (cl - 2) ^ 2 - (cl - 2) - (cl - 2) - (cl - 2) ^ 2
                            - (cl - 2) - (cl - 2) ^ 2 < (cl - 2) ^ 2 := by
                          generalize hA : cl ^ 2 = A at hident ⊢
                          generalize hB : (cl - 2) ^ 2 = B at hident ⊢
                          generalize hC : cl ^ 3 = C at hw hident
                          generalize hD : (cl - 2) ^ 3 = D at hw hident
                          omega
                        rw [onionPointNd2Checked_eq (cl - 2)
                          (r0 - cl ^ 2 - cl ^ 2 - (cl - 2) - (cl - 2) ^ 2
                            - (cl - 2) - (cl - 2) - (cl - 2) ^ 2 - (cl - 2)
                            - (cl - 2) ^ 2) hfitD2 hbound]
                        simp only [Option.some_bind]

lemma onionIndexNdChecked_eq (d side : Nat) (p : List Nat)
    (hfit : side ^ d ≤ u32Max) (hlen : p.length = d)
    (hval : ∀ k, k < d → p.getD k 0 < side) :
    onionIndexNdChecked d side p = some (onionIndexNd d side p) := by
  unfold onionIndexNdChecked onionIndexNd
  by_cases h0 : d = 0 ∨ side = 0
  · rw [if_pos h0, if_pos h0]
  · rw [if_neg h0, if_neg h0]
    push_neg at h0
    by_cases h3 : d = 3 ∧ 2 < side
    · rw [if_pos h3, if_pos h3]
      obtain ⟨hd3, hs3⟩ := h3
      subst hd3
      exact onionIndex3dChecked_eq side p (by omega) hfit hlen hval
    · rw [if_neg h3, if_neg h3]
      have hd1 : 1 ≤ d := by omega
      exact onionIndexGenericChecked_eq d side p hd1 hfit hlen hval

lemma onionPointNdChecked_eq (d side index : Nat)
    (hfit : side ^ d ≤ u32Max) (hidx : index < side ^ d) :
    onionPointNdChecked d side index = some (onionPointNd d side index) := by
  unfold onionPointNdChecked onionPointNd
  by_cases h0 : d = 0 ∨ side = 0
  · rw [if_pos h0, if_pos h0]
  · rw [if_neg h0, if_neg h0]
    push_neg at h0
    by_cases h3 : d = 3 ∧ 2 < side
    · rw [if_pos h3, if_pos h3]
      obtain ⟨hd3, hs3⟩ := h3
      subst hd3
      exact onionPoint3dChecked_eq side index (by omega) hfit hidx
    · rw [if_neg h3, if_neg h3]
      have hd1 : 1 ≤ d := by omega
      exact onionPointGenericChecked_eq d side index hd1 hfit hidx

/-- C9: under the `GridSpec` precondition that `S^N` fits in `u32`, the
fully-checked mirror of the Onion pipeline (`onionIndexNdChecked` /
`onionPointNdChecked`, which guard with `checked_mul`/`checked_pow` every
multiplication and power the source performs and propagate any overflow as
`none`) never hits an overflow branch: on every valid point `p` and every
valid index `i` it succeeds and returns exactly the unchecked value. -/
theorem C9_onion_checked_arithmetic_no_overflow (N S : Nat) (p : List Nat)
    (i : Nat) (hfit : S ^ N ≤ u32Max) (hlen : p.length = N)
    (hval : ∀ k, k < N → p.getD k 0 < S) (hi : i < S ^ N) :
    onionIndexNdChecked N S p = some (onionIndexNd N S p) ∧
    onionPointNdChecked N S i = some (onionPointNd N S i) :=
  ⟨onionIndexNdChecked_eq N S p hfit hlen hval,
   onionPointNdChecked_eq N S i hfit hi⟩

/-- Witness for C9 at `N = 3`, `S = 4`, `p = [1, 2, 3]`, `i = 37`. -/
theorem C9_onion_checked_arithmetic_no_overflow_witness :
    onionIndexNdChecked 3 4 [1, 2, 3] = some (onionIndexNd 3 4 [1, 2, 3]) ∧
    onionPointNdChecked 3 4 37 = some (onionPointNd 3 4 37) :=
  C9_onion_checked_arithmetic_no_overflow 3 4 [1, 2, 3] 37 (by decide)
    (by decide) (by decide) (by decide)

end Spacecurve
